import Mathlib

/-!
Verification of the awless template-language core against its source.

The embedding below mirrors, rule by rule, the generated PEG parser of the
template grammar (package `ast`): the `_rules` array of matcher closures, the
`add`/`max` token bookkeeping used for error reporting, `translatePositions`,
`parseError.Error`, and the `Execute` loop that replays the committed token
tree into builder calls.  Builder calls are fused into an explicit event list:
each `ruleActionN` token of the Go code becomes one `Event`, carrying the text
of its preceding `rulePegText` capture, which is exactly the string `Execute`
passes to the builder method.  Backtracking in the Go code restores
`position`/`tokenIndex` but never `max`; the embedding threads the `max` token
through failures in the same way.

The repository parts that the claims need but that are not under `src/`
(the AST builder of package `template/ast`, `tplExec.Revert`, the command
collaborators, `fakeDryRunId`) are modelled from the spec and marked as such
in their doc comments.
-/

set_option maxRecDepth 20000
set_option maxHeartbeats 1000000

/-- The rule enumeration of the generated parser (`pegRule` in the source).
The `ruleActionN` constants are omitted: their tokens always have
`begin == end`, so they can never become the `max` token, and their effect on
`Execute` is fused into `Event` below. -/
inductive pegRule where
  | unknown
  | script
  | statement
  | action
  | entity
  | declaration
  | expr
  | params
  | param
  | identifier
  | value
  | stringValue
  | csvValue
  | cidrValue
  | ipValue
  | intValue
  | intRangeValue
  | refValue
  | aliasValue
  | holeValue
  | comment
  | spacing
  | whiteSpacing
  | mustWhiteSpacing
  | equal
  | space
  | whitespace
  | endOfLine
  | endOfFile
  | pegText
deriving DecidableEq, Repr, Fintype

/-- The rule-name table `rul3s` of the generated parser. -/
def rul3s : pegRule → String
  | .unknown => "Unknown"
  | .script => "Script"
  | .statement => "Statement"
  | .action => "Action"
  | .entity => "Entity"
  | .declaration => "Declaration"
  | .expr => "Expr"
  | .params => "Params"
  | .param => "Param"
  | .identifier => "Identifier"
  | .value => "Value"
  | .stringValue => "StringValue"
  | .csvValue => "CSVValue"
  | .cidrValue => "CidrValue"
  | .ipValue => "IpValue"
  | .intValue => "IntValue"
  | .intRangeValue => "IntRangeValue"
  | .refValue => "RefValue"
  | .aliasValue => "AliasValue"
  | .holeValue => "HoleValue"
  | .comment => "Comment"
  | .spacing => "Spacing"
  | .whiteSpacing => "WhiteSpacing"
  | .mustWhiteSpacing => "MustWhiteSpacing"
  | .equal => "Equal"
  | .space => "Space"
  | .whitespace => "Whitespace"
  | .endOfLine => "EndOfLine"
  | .endOfFile => "EndOfFile"
  | .pegText => "PegText"

/-- A `token32` of the generated parser: rule plus the half-open span
`[beginPos, endPos)` it matched. -/
structure Tok where
  rule : pegRule
  beginPos : Nat
  endPos : Nat
deriving DecidableEq, Repr

/-- The zero `token32{}` that `Init`/`reset` start `max` from. -/
def tok0 : Tok := ⟨.unknown, 0, 0⟩

/-- The `max`-update performed by `add` in the generated parser:
`if begin != position && position > max.end { max = token32{rule, begin, position} }`. -/
def updMax (mx : Tok) (r : pegRule) (b e : Nat) : Tok :=
  if b ≠ e ∧ e > mx.endPos then ⟨r, b, e⟩ else mx

/-- One builder call of the `Execute` loop.  Each constructor corresponds to
one `ruleActionN` case of the `switch` in `Execute`, and its `String` argument
is the `text` of the preceding `rulePegText` token.  `Action6`, `Action11` and
`Action13` all invoke `p.addParamValue(text)`, so they share the `paramValue`
constructor; `Action3` and `Action14` both invoke `p.LineDone()`. -/
inductive Event where
  | declId (s : String)
  | action (s : String)
  | entity (s : String)
  | paramKey (s : String)
  | holeValue (s : String)
  | paramValue (s : String)
  | refValue (s : String)
  | cidrValue (s : String)
  | ipValue (s : String)
  | csvValue (s : String)
  | intValue (s : String)
  | lineDone
deriving DecidableEq, Repr

/-- A parser in the embedding: buffer, position, current `max` token in,
updated `max` token plus (on success) new position and emitted events out.
Failure restores position and discards events (as the generated code restores
`position, tokenIndex`) but keeps the `max` token. -/
def PParser : Type := List Char → Nat → Tok → Tok × Option (Nat × List Event)

/-- The text of a capture span, `string(_buffer[i:j])` in the source. -/
def textOf (b : List Char) (i j : Nat) : String :=
  ((b.drop i).take (j - i)).asString

/-- Single-character matching of the generated parser:
`if buffer[position] != rune(c) ...`.
Reading at or past the end of the buffer sees the appended `endSymbol`, which
equals no real character. -/
def pchar (c : Char) : PParser := fun b pos mx =>
  match b.get? pos with
  | some c' => if c' = c then (mx, some (pos + 1, [])) else (mx, none)
  | none => (mx, none)

/-- A character-class matcher (the `[...]` sets of the grammar, compiled to
range checks or a `switch` in the generated code). -/
def pclass (f : Char → Bool) : PParser := fun b pos mx =>
  match b.get? pos with
  | some c' => if f c' then (mx, some (pos + 1, [])) else (mx, none)
  | none => (mx, none)

/-- The `matchDot` wildcard: any character but the `endSymbol` terminator. -/
def pany : PParser := fun b pos mx =>
  if pos < b.length then (mx, some (pos + 1, [])) else (mx, none)

/-- A literal string: the generated code checks its characters one by one and
fails the whole alternative on the first mismatch. -/
def matchesAt (b : List Char) (pos : Nat) (l : List Char) : Bool :=
  decide ((b.drop pos).take l.length = l)

/-- Literal matcher built on `matchesAt`. -/
def pliteral (l : List Char) : PParser := fun b pos mx =>
  if matchesAt b pos l then (mx, some (pos + l.length, [])) else (mx, none)

/-- Sequencing: second part starts where the first stopped; events concatenate
in order, as the token tree records them. -/
def pseq (p q : PParser) : PParser := fun b pos mx =>
  match p b pos mx with
  | (mx1, none) => (mx1, none)
  | (mx1, some (pos1, ev1)) =>
    match q b pos1 mx1 with
    | (mx2, none) => (mx2, none)
    | (mx2, some (pos2, ev2)) => (mx2, some (pos2, ev1 ++ ev2))

/-- Ordered choice: on failure of the first alternative the generated code
restores `position, tokenIndex` (dropping its events) but keeps `max`. -/
def palt (p q : PParser) : PParser := fun b pos mx =>
  match p b pos mx with
  | (mx1, some r) => (mx1, some r)
  | (mx1, none) => q b pos mx1

/-- Negative lookahead `!e`: succeeds without consuming exactly when the inner
matcher fails; `max` updates made inside the inner attempt survive. -/
def pnot (p : PParser) : PParser := fun b pos mx =>
  match p b pos mx with
  | (mx1, some _) => (mx1, none)
  | (mx1, none) => (mx1, some (pos, []))

/-- Option `e?`. -/
def popt (p : PParser) : PParser := fun b pos mx =>
  match p b pos mx with
  | (mx1, some r) => (mx1, some r)
  | (mx1, none) => (mx1, some (pos, []))

/-- Repetition loop of `e*`: iterate while the body succeeds.  Every starred
body of this grammar consumes at least one character on success, so the fuel
`b.length + 1 - pos` supplied by `pstar` can never run out before the loop
ends; the zero-progress guard mirrors the fact that the Go loop would not
terminate there (no such body exists in this grammar). -/
def pstarAux (p : PParser) (b : List Char) : Nat → Nat → Tok → Tok × Option (Nat × List Event)
  | 0, pos, mx => (mx, some (pos, []))
  | fuel + 1, pos, mx =>
    match p b pos mx with
    | (mx1, none) => (mx1, some (pos, []))
    | (mx1, some (pos1, ev1)) =>
      if pos1 ≤ pos then (mx1, some (pos1, ev1))
      else
        match pstarAux p b fuel pos1 mx1 with
        | (mx2, some (pos2, ev2)) => (mx2, some (pos2, ev1 ++ ev2))
        | (mx2, none) => (mx2, none)

/-- Repetition `e*`. -/
def pstar (p : PParser) : PParser := fun b pos mx =>
  pstarAux p b (b.length + 1 - pos) pos mx

/-- Repetition `e+` is one occurrence followed by the loop. -/
def pplus (p : PParser) : PParser := pseq p (pstar p)

/-- The `add(ruleX, beginPos)` call at the end of a rule's matcher: records
the token (here: only its `max` effect, since `Execute` ignores all rules but
`rulePegText` and the actions). -/
def ptoken (r : pegRule) (p : PParser) : PParser := fun b pos mx =>
  match p b pos mx with
  | (mx1, none) => (mx1, none)
  | (mx1, some (pos1, ev)) => (updMax mx1 r pos pos1, some (pos1, ev))

/-- A `<...>` capture followed by one `ruleActionN`: the generated code adds a
`rulePegText` token over the span and the action token right after it, and
`Execute` hands the span's text to the builder method `mk` stands for. -/
def pcapture (p : PParser) (mk : String → Event) : PParser := fun b pos mx =>
  match p b pos mx with
  | (mx1, none) => (mx1, none)
  | (mx1, some (pos1, ev)) =>
    (updMax mx1 .pegText pos pos1, some (pos1, ev ++ [mk (textOf b pos pos1)]))

/-- A bare `ruleActionN` with no own capture (`Action3`/`Action14`, whose
builder call `LineDone()` ignores `text`). -/
def pemit (e : Event) : PParser := fun _ pos mx => (mx, some (pos, [e]))

/-- Character set of `Identifier <- [a-zA-Z0-9-_.]+` (the generated `switch`). -/
def identChar (c : Char) : Bool :=
  c = '.' || c = '_' || c = '-' || ('0' ≤ c && c ≤ '9') ||
    ('A' ≤ c && c ≤ 'Z') || ('a' ≤ c && c ≤ 'z')

/-- Character set of `StringValue <- [a-zA-Z0-9-._:/]+`. -/
def stringChar (c : Char) : Bool :=
  c = '/' || c = ':' || c = '_' || c = '.' || c = '-' || ('0' ≤ c && c ≤ '9') ||
    ('A' ≤ c && c ≤ 'Z') || ('a' ≤ c && c ≤ 'z')

/-- Digit class `[0-9]`. -/
def digitChar (c : Char) : Bool := '0' ≤ c && c ≤ '9'

/-- Rule `Whitespace <- ' ' / '\t'`. -/
def pWhitespace : PParser := ptoken .whitespace (palt (pchar ' ') (pchar '\t'))

/-- Rule `EndOfLine <- '\r\n' / '\n' / '\r'`. -/
def pEndOfLine : PParser :=
  ptoken .endOfLine (palt (pliteral ['\r', '\n']) (palt (pchar '\n') (pchar '\r')))

/-- Rule `Space <- Whitespace / EndOfLine`. -/
def pSpace : PParser := ptoken .space (palt pWhitespace pEndOfLine)

/-- Rule `Spacing <- Space*`. -/
def pSpacing : PParser := ptoken .spacing (pstar pSpace)

/-- Rule `WhiteSpacing <- Whitespace*`. -/
def pWhiteSpacing : PParser := ptoken .whiteSpacing (pstar pWhitespace)

/-- Rule `MustWhiteSpacing <- Whitespace+`. -/
def pMustWhiteSpacing : PParser := ptoken .mustWhiteSpacing (pplus pWhitespace)

/-- Rule `Equal <- Spacing '=' Spacing`. -/
def pEqual : PParser := ptoken .equal (pseq pSpacing (pseq (pchar '=') pSpacing))

/-- Rule `Identifier <- [a-zA-Z0-9-_.]+`. -/
def pIdentifier : PParser := ptoken .identifier (pplus (pclass identChar))

/-- Rule `StringValue <- [a-zA-Z0-9-._:/]+`. -/
def pStringValue : PParser := ptoken .stringValue (pplus (pclass stringChar))

/-- An inline `[0-9]+` group (no rule token of its own in the generated code). -/
def pDigits : PParser := pplus (pclass digitChar)

/-- Body of `CidrValue <- [0-9]+ . [0-9]+ . [0-9]+ . [0-9]+ '/' [0-9]+`.
The three unquoted dots of the grammar are the PEG any-character wildcard:
the generated code calls `matchDot` there, not a literal-dot check. -/
def pCidrBody : PParser :=
  pseq pDigits (pseq pany (pseq pDigits (pseq pany
    (pseq pDigits (pseq pany (pseq pDigits (pseq (pchar '/') pDigits)))))))

/-- Body of `IpValue <- [0-9]+ . [0-9]+ . [0-9]+ . [0-9]+` (wildcard dots,
as in `pCidrBody`). -/
def pIpBody : PParser :=
  pseq pDigits (pseq pany (pseq pDigits (pseq pany (pseq pDigits (pseq pany pDigits)))))

/-- Body of `IntRangeValue <- [0-9]+ '-' [0-9]+`. -/
def pIntRangeBody : PParser := pseq pDigits (pseq (pchar '-') pDigits)

/-- Body of `CSVValue <- (StringValue WhiteSpacing ',' WhiteSpacing)+ StringValue`. -/
def pCSVBody : PParser :=
  pseq (pplus (pseq pStringValue (pseq pWhiteSpacing (pseq (pchar ',') pWhiteSpacing))))
    pStringValue

/-- Rule `RefValue <- '$' <Identifier>` followed by `Action7`
(`addParamRefValue(text)`, text = the identifier). -/
def pRefValue : PParser :=
  ptoken .refValue (pseq (pchar '$') (pcapture pIdentifier Event.refValue))

/-- Rule `AliasValue <- <'@' StringValue>` followed by `Action6`
(`addParamValue(text)`, text includes the leading `@`). -/
def pAliasValue : PParser :=
  ptoken .aliasValue (pcapture (pseq (pchar '@') pStringValue) Event.paramValue)

/-- Rule `HoleValue <- '{' WhiteSpacing <Identifier> WhiteSpacing '}'` followed by
`Action5` (`addParamHoleValue(text)`, text = the inner identifier). -/
def pHoleValue : PParser :=
  ptoken .holeValue (pseq (pchar '{') (pseq pWhiteSpacing
    (pseq (pcapture pIdentifier Event.holeValue) (pseq pWhiteSpacing (pchar '}')))))

/-- The sigil `switch` ending the generated `Value` rule: `'$'` selects
`RefValue`, `'@'` selects `AliasValue`, `'{'` selects `HoleValue`, and the
default case runs `StringValue` (failing when the character is outside its
set, including at end of input). -/
def pValueSwitch : PParser := fun b pos mx =>
  match b.get? pos with
  | some c =>
    if c = '$' then pRefValue b pos mx
    else if c = '@' then pAliasValue b pos mx
    else if c = '{' then pHoleValue b pos mx
    else pcapture pStringValue Event.paramValue b pos mx
  | none => pcapture pStringValue Event.paramValue b pos mx

/-- The generated `Value` rule, in the order the generated code tries its
alternatives: CidrValue, IpValue, CSVValue, IntRangeValue, IntValue, then the
sigil switch.  (The grammar header of the source lists the sigil alternatives
first; the generator emitted them last, behind a first-character switch, which
is what executes.) -/
def pValue : PParser :=
  ptoken .value
    (palt (pcapture (ptoken .cidrValue pCidrBody) Event.cidrValue)
    (palt (pcapture (ptoken .ipValue pIpBody) Event.ipValue)
    (palt (pcapture (ptoken .csvValue pCSVBody) Event.csvValue)
    (palt (pcapture (ptoken .intRangeValue pIntRangeBody) Event.paramValue)
    (palt (pcapture (ptoken .intValue pDigits) Event.intValue)
      pValueSwitch)))))

/-- Rule `Param <- <Identifier> Action4 Equal Value WhiteSpacing`. -/
def pParam : PParser :=
  ptoken .param (pseq (pcapture pIdentifier Event.paramKey)
    (pseq pEqual (pseq pValue pWhiteSpacing)))

/-- Rule `Params <- Param+`. -/
def pParams : PParser := ptoken .params (pplus pParam)

/-- The first-character `switch` ending the generated `Action` rule. -/
def pActionSwitch : PParser := fun b pos mx =>
  match b.get? pos with
  | some c =>
    if c = 'd' then pliteral "detach".toList b pos mx
    else if c = 'c' then pliteral "check".toList b pos mx
    else if c = 'a' then pliteral "attach".toList b pos mx
    else if c = 'u' then pliteral "update".toList b pos mx
    else if c = 's' then pliteral "stop".toList b pos mx
    else pliteral "none".toList b pos mx
  | none => pliteral "none".toList b pos mx

/-- Body of the generated `Action` rule: `'create' / 'delete' / 'start'`
then the first-character switch. -/
def pActionBody : PParser :=
  palt (pliteral "create".toList)
    (palt (pliteral "delete".toList) (palt (pliteral "start".toList) pActionSwitch))

/-- The first-character `switch` ending the generated `Entity` rule. -/
def pEntitySwitch : PParser := fun b pos mx =>
  match b.get? pos with
  | some c =>
    if c = 'l' then pliteral "listener".toList b pos mx
    else if c = 'q' then pliteral "queue".toList b pos mx
    else if c = 't' then pliteral "topic".toList b pos mx
    else if c = 's' then pliteral "subscription".toList b pos mx
    else if c = 'b' then pliteral "bucket".toList b pos mx
    else if c = 'r' then pliteral "route".toList b pos mx
    else if c = 'i' then pliteral "internetgateway".toList b pos mx
    else if c = 'k' then pliteral "keypair".toList b pos mx
    else if c = 'p' then pliteral "policy".toList b pos mx
    else if c = 'g' then pliteral "group".toList b pos mx
    else if c = 'u' then pliteral "user".toList b pos mx
    else if c = 'v' then pliteral "volume".toList b pos mx
    else pliteral "none".toList b pos mx
  | none => pliteral "none".toList b pos mx

/-- Body of the generated `Entity` rule: nine literal alternatives in order,
then the first-character switch. -/
def pEntityBody : PParser :=
  palt (pliteral "vpc".toList)
    (palt (pliteral "subnet".toList)
    (palt (pliteral "instance".toList)
    (palt (pliteral "tag".toList)
    (palt (pliteral "role".toList)
    (palt (pliteral "securitygroup".toList)
    (palt (pliteral "routetable".toList)
    (palt (pliteral "storageobject".toList)
    (palt (pliteral "loadbalancer".toList) pEntitySwitch))))))))

/-- Rule `Expr <- <Action> Action1 MustWhiteSpacing <Entity> Action2
(MustWhiteSpacing Params)? Action3`; `Action3` is `LineDone()`, emitted at the
end of every expression. -/
def pExpr : PParser :=
  ptoken .expr (pseq (pcapture (ptoken .action pActionBody) Event.action)
    (pseq pMustWhiteSpacing
    (pseq (pcapture (ptoken .entity pEntityBody) Event.entity)
    (pseq (popt (pseq pMustWhiteSpacing pParams)) (pemit .lineDone)))))

/-- Rule `Declaration <- <Identifier> Action0 Equal Expr`. -/
def pDeclaration : PParser :=
  ptoken .declaration (pseq (pcapture pIdentifier Event.declId) (pseq pEqual pExpr))

/-- Body of `Comment <- '#' (!EndOfLine .)* / '//' (!EndOfLine .)* Action14`.
In the source grammar and in the generated code the `LineDone()` action is
attached only to the `//` alternative; the `#` alternative performs no builder
call at all. -/
def pCommentBody : PParser :=
  palt (pseq (pchar '#') (pstar (pseq (pnot pEndOfLine) pany)))
    (pseq (pliteral ['/', '/'])
      (pseq (pstar (pseq (pnot pEndOfLine) pany)) (pemit .lineDone)))

/-- Rule `Comment` with its rule token. -/
def pComment : PParser := ptoken .comment pCommentBody

/-- Rule `Statement <- Spacing (Expr / Declaration / Comment) Spacing EndOfLine*`. -/
def pStatement : PParser :=
  ptoken .statement (pseq pSpacing (pseq (palt pExpr (palt pDeclaration pComment))
    (pseq pSpacing (pstar pEndOfLine))))

/-- Rule `Script <- Spacing Statement+ EndOfFile`, with `EndOfFile <- !.`. -/
def pScript : PParser :=
  ptoken .script (pseq pSpacing (pseq (pplus pStatement) (ptoken .endOfFile (pnot pany))))

/-- Run the grammar start rule from position 0 with the zero `max` token, as
`p.parse` does after `reset`. -/
def scriptRunL (b : List Char) : Tok × Option (Nat × List Event) := pScript b 0 tok0

/-- Holds exactly when `Parse` returns a nil error on this buffer. -/
def parseOKL (b : List Char) : Bool := (scriptRunL b).2.isSome

/-- The per-position part of `translatePositions`: walk the buffer (plus the
appended `endSymbol`, which is not `'\n'`), bumping `line`/resetting `symbol`
on each newline and bumping `symbol` otherwise; return the state right after
processing index `i`. -/
def lineSymAux : List Char → Nat × Nat → Nat × Nat
  | [], ls => ls
  | c :: cs, (line, sym) =>
    lineSymAux cs (if c = '\n' then (line + 1, 0) else (line, sym + 1))

/-- The `translatePositions` computation for one position `i` of the buffer (index
`b.length` is the `endSymbol` slot, counted as an ordinary symbol). -/
def translatePosition (b : List Char) (i : Nat) : Nat × Nat :=
  if i < b.length then lineSymAux (b.take (i + 1)) (1, 0)
  else
    match lineSymAux b (1, 0) with
    | (line, sym) => (line, sym + 1)

/-- One character of `strconv.Quote`, restricted to the character repertoire this grammar can
put in a `max` token span: printable ASCII stays as is, and the standard
escapes are applied; other low bytes use the two-digit hexadecimal form. -/
def goQuoteChar (c : Char) : List Char :=
  if c = '"' then ['\\', '"']
  else if c = '\\' then ['\\', '\\']
  else if c = '\n' then ['\\', 'n']
  else if c = '\r' then ['\\', 'r']
  else if c = '\t' then ['\\', 't']
  else if ' ' ≤ c ∧ c.toNat < 127 then [c]
  else
    ['\\', 'x', (Nat.digitChar ((c.toNat / 16) % 16)), (Nat.digitChar (c.toNat % 16))]

/-- Whole-string `strconv.Quote` (ASCII repertoire). -/
def goQuote (s : String) : String :=
  "\"" ++ (s.toList.flatMap goQuoteChar).asString ++ "\""

/-- The `parseError.Error()` message: the newline-led text built from the single `max`
token, the rule-name table, the translated line/symbol positions of the
token's span and the quoted span text. -/
def parseErrorMessage (b : List Char) (mx : Tok) : String :=
  match translatePosition b mx.beginPos, translatePosition b mx.endPos with
  | (bl, bs), (el, es) =>
    "\n" ++ "parse error near " ++ rul3s mx.rule ++
      " (line " ++ toString bl ++ " symbol " ++ toString bs ++
      " - line " ++ toString el ++ " symbol " ++ toString es ++ "):\n" ++
      goQuote (textOf b mx.beginPos mx.endPos) ++ "\n"

/-- Combination of `Parse` followed by `Execute`: a nil error together with the
ordered builder calls on success, or the `parseError` message on failure. -/
def parseTemplate (s : String) : Except String (List Event) :=
  match scriptRunL s.toList with
  | (_, some (_, evs)) => .ok evs
  | (mx, none) => .error (parseErrorMessage s.toList mx)

/-- The nine action literals, in the order the generated `Action` rule tries
them (three explicit alternatives, then the switch cases in source order). -/
def actionLits : List String :=
  ["create", "delete", "start", "detach", "check", "attach", "update", "stop", "none"]

/-- The entity literals of the generated `Entity` rule (nine explicit
alternatives, then the switch cases in source order). -/
def entityLits : List String :=
  ["vpc", "subnet", "instance", "tag", "role", "securitygroup", "routetable",
   "storageobject", "loadbalancer", "listener", "queue", "topic", "subscription",
   "bucket", "route", "internetgateway", "keypair", "policy", "group", "user", "volume",
   "none"]

/-- Typed parameter value of the data model (§3 of the spec). -/
inductive Value where
  | str (s : String)
  | int (n : Nat)
  | intRange (lo hi : Nat)
  | cidr (s : String)
  | ip (s : String)
  | csv (items : List String)
  | ref (id : String)
  | alias (name : String)
  | hole (id : String)
deriving DecidableEq, Repr

/-- Decimal value of a digit string (builder-side `strconv.Atoi` on captured
digit runs). -/
def natOfDigits (cs : List Char) : Nat :=
  cs.foldl (fun n c => n * 10 + (c.toNat - 48)) 0

/-- Split on a character (no escaping in this grammar). -/
def splitOnChar (c : Char) : List Char → List (List Char)
  | [] => [[]]
  | x :: xs =>
    let r := splitOnChar c xs
    if x = c then [] :: r
    else
      match r with
      | [] => [[x]]
      | y :: ys => (x :: y) :: ys

/-- Trim the surrounding whitespace a CSV item may carry. -/
def trimWS (cs : List Char) : List Char :=
  ((cs.dropWhile fun c => c = ' ' ∨ c = '\t').reverse.dropWhile
    fun c => c = ' ' ∨ c = '\t').reverse

/-- Modelled from the spec: the AST builder (package `template/ast`, not under
`src/`) turns a captured CSV span into the ordered list of its comma-separated
string items, ignoring the optional surrounding whitespace (§3, §4.1). -/
def splitCSV (s : String) : List String :=
  (splitOnChar ',' s.toList).map fun item => (trimWS item).asString

/-- Modelled from the spec: the AST builder's `addParamValue` (package
`template/ast`, not under `src/`) receives the raw text of an Alias, IntRange
or generic String alternative and tags it per §3: a leading `@` yields
`Alias(name)`, a `digits-digits` shape yields `IntRange(lo,hi)`, anything else
is a generic String. -/
def decodeParamValue (s : String) : Value :=
  match s.toList with
  | '@' :: rest => .alias rest.asString
  | cs =>
    let d1 := cs.takeWhile digitChar
    let rest := cs.dropWhile digitChar
    if d1 ≠ [] ∧ rest.head? = some '-' ∧ rest.tail ≠ [] ∧ rest.tail.all digitChar then
      .intRange (natOfDigits d1) (natOfDigits rest.tail)
    else .str s

/-- An Action/Entity/Params triple (§3). -/
structure ExpressionNode where
  action : String
  entity : String
  params : List (String × Value)
deriving DecidableEq, Repr

/-- A statement of the built template (§3; comments produce no statement
because the parser emits no builder call for them). -/
inductive Stmt where
  | expr (e : ExpressionNode)
  | decl (id : String) (e : ExpressionNode)
deriving DecidableEq, Repr

/-- Modelled from the spec: the accumulating state of the AST builder (§4.2,
package `template/ast`, not under `src/`): the partial statement being built
and the statements already sealed. -/
structure Builder where
  stmts : List Stmt
  declId : Option String
  action : Option String
  entity : Option String
  params : List (String × Value)
  curKey : Option String
deriving DecidableEq, Repr

/-- The empty builder state. -/
def emptyBuilder : Builder := ⟨[], none, none, none, [], none⟩

/-- Attach a decoded value to the pending parameter key. -/
def addParam (st : Builder) (v : Value) : Builder :=
  match st.curKey with
  | some k => { st with params := st.params ++ [(k, v)], curKey := none }
  | none => st

/-- Modelled from the spec: one builder call (§4.2).  `lineDone` seals the
current partial statement (an expression, or a declaration when an identifier
was announced) onto the template and resets the partial state. -/
def stepBuilder (st : Builder) : Event → Builder
  | .declId s => { st with declId := some s }
  | .action s => { st with action := some s }
  | .entity s => { st with entity := some s }
  | .paramKey s => { st with curKey := some s }
  | .holeValue s => addParam st (.hole s)
  | .refValue s => addParam st (.ref s)
  | .cidrValue s => addParam st (.cidr s)
  | .ipValue s => addParam st (.ip s)
  | .csvValue s => addParam st (.csv (splitCSV s))
  | .intValue s => addParam st (.int (natOfDigits s.toList))
  | .paramValue s => addParam st (decodeParamValue s)
  | .lineDone =>
    match st.action, st.entity with
    | some a, some e =>
      let node : ExpressionNode := ⟨a, e, st.params⟩
      let stmt := match st.declId with
        | some id => Stmt.decl id node
        | none => Stmt.expr node
      { emptyBuilder with stmts := st.stmts ++ [stmt] }
    | _, _ => { emptyBuilder with stmts := st.stmts }

/-- Replay the builder calls of a successful parse into a template. -/
def buildTemplate (evs : List Event) : List Stmt :=
  (evs.foldl stepBuilder emptyBuilder).stmts

/-- Parse then build: the in-memory template a text yields. -/
def parseToTemplate (s : String) : Except String (List Stmt) :=
  (parseTemplate s).map buildTemplate

/-- A Go error as the driver layer sees it: either a value implementing
`awserr.Error` (with its `Code()`), or any other error. -/
inductive GoErr where
  | awsErr (code : String) (msg : String)
  | plain (msg : String)
deriving DecidableEq, Repr

/-- The `dryRunOperation` constant of the generated driver file. -/
def dryRunOperation : String := "DryRunOperation"

/-- The `notFound` constant of the generated driver file. -/
def notFound : String := "NotFound"

/-- Go `strings.HasSuffix`. -/
def goHasSuffix (s suffix : String) : Bool := suffix.toList.isSuffixOf s.toList

/-- Modelled from the spec: `fakeDryRunId` (package `aws` driver helpers, not
under `src/`) synthesizes a simulated identifier for the given entity on a
"would succeed" dry-run outcome (§4.4). -/
def fakeDryRunId (entity : String) : String := "dryrunid-" ++ entity

/-- The `Create_Vpc_DryRun` function of the generated driver file, from the point its
required parameter has been set: `setFieldErr` is the outcome of
`setFieldWithType` (an error aborts before any platform call), `callErr` the
error of the underlying `d.CreateVpc(input)` platform call.  A platform error
asserting to `awserr.Error` whose code equals `dryRunOperation` or ends in
`notFound` yields the synthesized identifier with a nil error; every other
outcome is returned as is with no identifier. -/
def Create_Vpc_DryRun (setFieldErr : Option GoErr) (callErr : Option GoErr) :
    Option String × Option GoErr :=
  match setFieldErr with
  | some e => (none, some e)
  | none =>
    match callErr with
    | some (.awsErr code _) =>
      if code = dryRunOperation ∨ goHasSuffix code notFound then
        (some (fakeDryRunId "vpc"), none)
      else (none, callErr)
    | _ => (none, callErr)

/-- One line of a persisted ExecutionRecord (§3): the executed statement with
its captured resolved parameters, its result, and its outcome. -/
structure ExecutedStatement where
  action : String
  entity : String
  params : List (String × String)
  result : Option String
  err : Option String
deriving DecidableEq, Repr

/-- Modelled from the spec: the fixed inverse-action table of the Revert
Generator (§4.5 step 3): `create↔delete`, `start↔stop`, `attach↔detach`;
`delete`, `update`, `check`, `none` have no defined inverse. -/
def invertAction : String → Option String
  | "create" => some "delete"
  | "start" => some "stop"
  | "stop" => some "start"
  | "attach" => some "detach"
  | "detach" => some "attach"
  | _ => none

/-- Modelled from the spec: build one inverse statement (§4.5 steps 3-4) from
the captured resolved values and result of the original execution; for a
reverted creation the primary identifying parameter is the recorded result. -/
def invertStatement (e : ExecutedStatement) : Option ExecutedStatement :=
  match invertAction e.action with
  | none => none
  | some a' =>
    if e.action = "create" then
      some ⟨a', e.entity, [("id", (e.result.getD ""))], none, none⟩
    else
      some ⟨a', e.entity, e.params, none, none⟩

/-- Modelled from the spec: `tplExec.Revert` (package `template`, not under
`src/`; only its call site `src/commands/revert.go:53` is in the sources):
keep the successfully executed entries, reverse their order, and map each to
its inverse, skipping entries whose action has no defined inverse (§4.5). -/
def Revert (record : List ExecutedStatement) : List ExecutedStatement :=
  ((record.filter fun e => e.err.isNone).reverse).filterMap invertStatement

/-- Observable steps of the revert command flow, in the order
`revertCmd.RunE` performs them. -/
inductive RevertEvent where
  | dbCurrent
  | getTemplateExecution (id : String)
  | dbClose
  | revertBuild
  | print (s : String)
  | run (record : List ExecutedStatement)
deriving DecidableEq, Repr

/-- Outcome of the revert command: an error returned from `RunE`, a process
exit through `exitOn`, or normal completion. -/
inductive CmdOutcome where
  | errored (msg : String)
  | exited
  | completed
deriving DecidableEq, Repr

/-- Modelled from the spec: the external collaborators `revertCmd.RunE` uses
(§6; `database.Current`, `GetTemplateExecution`, `tplExec.Revert`, the
template rendering and `runTemplate` are not under `src/`). -/
structure RevertDeps where
  dbCurrentErr : Option String
  getExec : String → Except String (List ExecutedStatement)
  revertErr : Option String
  render : List ExecutedStatement → String
  runErr : List ExecutedStatement → Option String

/-- The `revertCmd.RunE` function of `src/commands/revert.go`: with no argument it returns
an error at once; otherwise it opens the store, loads the record by id, closes
the store, builds the reverted template, prints its rendering, and only then
executes it, `exitOn` aborting at the first failing step.  The returned trace
lists the performed steps in order. -/
def revertCmdRunE (args : List String) (deps : RevertDeps) :
    List RevertEvent × CmdOutcome :=
  match args with
  | [] => ([], .errored "REVERTID required (see `awless log` to list revert ids)")
  | revertId :: _ =>
    let tr1 : List RevertEvent := [.dbCurrent]
    match deps.dbCurrentErr with
    | some _ => (tr1, .exited)
    | none =>
      let tr2 := tr1 ++ [.getTemplateExecution revertId, .dbClose]
      match deps.getExec revertId with
      | .error _ => (tr2, .exited)
      | .ok record =>
        let tr3 := tr2 ++ [.revertBuild]
        match deps.revertErr with
        | some _ => (tr3, .exited)
        | none =>
          let reverted := Revert record
          let tr4 := tr3 ++ [.print (deps.render reverted ++ "\n")]
          let tr5 := tr4 ++ [.run reverted]
          match deps.runErr reverted with
          | some _ => (tr5, .exited)
          | none => (tr5, .completed)

/-- Holds when `Parse` succeeds on this text. -/
def parseOK (s : String) : Bool := parseOKL s.toList

/-- Does `needle` occur at the start of `hay`? -/
def isPrefixB (needle hay : List Char) : Bool := decide (hay.take needle.length = needle)

/-- Does `needle` occur anywhere in `hay`? -/
def isInfixB (needle : List Char) : List Char → Bool
  | [] => needle.isEmpty
  | c :: t => isPrefixB needle (c :: t) || isInfixB needle t

/-- Substring containment (used to state what an error message mentions). -/
def strContains (hay needle : String) : Bool := isInfixB needle.toList hay.toList

/-- A nonempty run of decimal digits. -/
def DigitRun (d : List Char) : Prop := d ≠ [] ∧ d.all digitChar = true

/-- The exact shape the `CidrValue` matcher accepts when run over a whole
token: four maximal digit runs separated by three arbitrary single characters
(the PEG wildcard), then a literal `'/'` and a final digit run.  Maximality of
each run is the greedy `[0-9]+` semantics, i.e. each separator is not a
digit. -/
def CidrShaped (b : List Char) : Prop :=
  ∃ d1 c1 d2 c2 d3 c3 d4 d5,
    b = d1 ++ (c1 :: (d2 ++ (c2 :: (d3 ++ (c3 :: (d4 ++ ('/' :: d5))))))) ∧
    DigitRun d1 ∧ DigitRun d2 ∧ DigitRun d3 ∧ DigitRun d4 ∧ DigitRun d5 ∧
    digitChar c1 = false ∧ digitChar c2 = false ∧ digitChar c3 = false

/-- The exact shape the `IpValue` matcher accepts when run over a whole token:
four maximal digit runs separated by three arbitrary single characters. -/
def IpShaped (b : List Char) : Prop :=
  ∃ d1 c1 d2 c2 d3 c3 d4,
    b = d1 ++ (c1 :: (d2 ++ (c2 :: (d3 ++ (c3 :: d4))))) ∧
    DigitRun d1 ∧ DigitRun d2 ∧ DigitRun d3 ∧ DigitRun d4 ∧
    digitChar c1 = false ∧ digitChar c2 = false ∧ digitChar c3 = false

/-- A character sequence containing neither of the characters that terminate
a comment body. -/
def NoEol (cs : List Char) : Prop := ∀ c ∈ cs, c ≠ '\n' ∧ c ≠ '\r'

/-- Events the parser can emit for an action or entity capture are drawn from
the closed enumerations; all other events are unconstrained. -/
def GoodEv : Event → Prop
  | .action s => s ∈ actionLits
  | .entity s => s ∈ entityLits
  | _ => True

/-- All events of a successful run of `p` satisfy `GoodEv`. -/
def PGood (p : PParser) : Prop :=
  ∀ b pos mx mx' pos' evs, p b pos mx = (mx', some (pos', evs)) → ∀ e ∈ evs, GoodEv e

/-- A parser never moves the position beyond the end of the buffer. -/
def PBound (p : PParser) : Prop :=
  ∀ b pos mx mx' pos' evs, pos ≤ b.length → p b pos mx = (mx', some (pos', evs)) →
    pos' ≤ b.length

/-! ### List helpers -/

theorem drop_cons_of_get (b : List Char) (pos : Nat) (c : Char) (h : b.get? pos = some c) :
    b.drop pos = c :: b.drop (pos + 1) := by
  induction b generalizing pos with
  | nil => simp [List.get?] at h
  | cons x xs ih =>
    cases pos with
    | zero => simp_all [List.get?]
    | succ n => simpa using ih n (by simpa using h)

theorem get_of_drop_cons (b : List Char) (pos : Nat) (c : Char) (r : List Char)
    (h : b.drop pos = c :: r) : b.get? pos = some c ∧ b.drop (pos + 1) = r := by
  induction b generalizing pos with
  | nil => simp at h
  | cons x xs ih =>
    cases pos with
    | zero => simp_all [List.get?]
    | succ n => simpa using ih n (by simpa using h)

theorem get_none_of_drop_nil (b : List Char) (pos : Nat) (h : b.drop pos = []) :
    b.get? pos = none := by
  induction b generalizing pos with
  | nil => simp [List.get?]
  | cons x xs ih =>
    cases pos with
    | zero => simp at h
    | succ n => simpa using ih n (by simpa using h)

theorem takeWhile_all_append (f : Char → Bool) (d : List Char) (c : Char) (r : List Char)
    (hd : d.all f = true) (hc : f c = false) :
    ((d ++ c :: r).takeWhile f) = d := by
  induction d with
  | nil => simp [List.takeWhile, hc]
  | cons x xs ih =>
    simp only [List.all_cons, Bool.and_eq_true] at hd
    simp [List.takeWhile, hd.1, ih hd.2]

theorem takeWhile_all_self (f : Char → Bool) (d : List Char) (hd : d.all f = true) :
    d.takeWhile f = d := by
  induction d with
  | nil => rfl
  | cons x xs ih =>
    simp only [List.all_cons, Bool.and_eq_true] at hd
    simp [List.takeWhile, hd.1, ih hd.2]

theorem dropWhile_cons_head (f : Char → Bool) (l : List Char) (c : Char) (r : List Char)
    (h : l.dropWhile f = c :: r) : f c = false := by
  induction l with
  | nil => simp at h
  | cons x xs ih =>
    by_cases hx : f x
    · exact ih (by simpa [List.dropWhile, hx] using h)
    · rw [List.dropWhile_cons_of_neg hx] at h
      cases h
      simpa using hx

theorem drop_takeWhile_length (f : Char → Bool) (l : List Char) :
    l.drop (l.takeWhile f).length = l.dropWhile f := by
  induction l with
  | nil => rfl
  | cons x xs ih =>
    by_cases hx : f x
    · simpa [List.takeWhile_cons_of_pos hx, List.dropWhile_cons_of_pos hx] using ih
    · simp [List.takeWhile_cons_of_neg hx, List.dropWhile_cons_of_neg hx]

/-! ### Inversion lemmas for the parser combinators -/


theorem pseq_inv {p q : PParser} {b : List Char} {pos : Nat} {mx mx2 : Tok} {pos2 : Nat}
    {evs : List Event} (h : pseq p q b pos mx = (mx2, some (pos2, evs))) :
    ∃ mx1 pos1 ev1 ev2, p b pos mx = (mx1, some (pos1, ev1)) ∧
      q b pos1 mx1 = (mx2, some (pos2, ev2)) ∧ evs = ev1 ++ ev2 := by
  unfold pseq at h
  split at h
  · simp at h
  · rename_i mx1 pos1 ev1 heq
    split at h
    · simp at h
    · rename_i mxq posq evq heq2
      simp only [Prod.mk.injEq, Option.some.injEq] at h
      obtain ⟨h1, h2, h3⟩ := h
      subst h1 h2 h3
      exact ⟨mx1, pos1, ev1, evq, heq, heq2, rfl⟩

theorem pseq_intro {p q : PParser} {b : List Char} {pos pos1 pos2 : Nat} {mx mx1 mx2 : Tok}
    {ev1 ev2 : List Event} (hp : p b pos mx = (mx1, some (pos1, ev1)))
    (hq : q b pos1 mx1 = (mx2, some (pos2, ev2))) :
    pseq p q b pos mx = (mx2, some (pos2, ev1 ++ ev2)) := by
  unfold pseq
  rw [hp]
  dsimp only
  rw [hq]

theorem pseq_fail_fst {p q : PParser} {b : List Char} {pos : Nat} {mx mx1 : Tok}
    (hp : p b pos mx = (mx1, none)) : pseq p q b pos mx = (mx1, none) := by
  unfold pseq
  rw [hp]

theorem pseq_fail_snd {p q : PParser} {b : List Char} {pos pos1 : Nat} {mx mx1 mx2 : Tok}
    {ev1 : List Event} (hp : p b pos mx = (mx1, some (pos1, ev1)))
    (hq : q b pos1 mx1 = (mx2, none)) : pseq p q b pos mx = (mx2, none) := by
  unfold pseq
  rw [hp]
  dsimp only
  rw [hq]

theorem palt_inv {p q : PParser} {b : List Char} {pos : Nat} {mx mx2 : Tok}
    {r : Nat × List Event} (h : palt p q b pos mx = (mx2, some r)) :
    p b pos mx = (mx2, some r) ∨
      ∃ mx1, p b pos mx = (mx1, none) ∧ q b pos mx1 = (mx2, some r) := by
  unfold palt at h
  split at h
  · rename_i mx1 r1 heq
    simp only [Prod.mk.injEq, Option.some.injEq] at h
    obtain ⟨h1, h2⟩ := h
    subst h1 h2
    exact Or.inl heq
  · rename_i mx1 heq
    exact Or.inr ⟨mx1, heq, h⟩

theorem palt_intro_fst {p q : PParser} {b : List Char} {pos : Nat} {mx mx1 : Tok}
    {r : Nat × List Event} (hp : p b pos mx = (mx1, some r)) :
    palt p q b pos mx = (mx1, some r) := by
  unfold palt
  rw [hp]

theorem palt_intro_snd {p q : PParser} {b : List Char} {pos : Nat} {mx mx1 : Tok}
    {out : Tok × Option (Nat × List Event)} (hp : p b pos mx = (mx1, none))
    (hq : q b pos mx1 = out) : palt p q b pos mx = out := by
  unfold palt
  rw [hp]
  dsimp only
  rw [hq]

theorem ptoken_inv {r : pegRule} {p : PParser} {b : List Char} {pos : Nat} {mx mx2 : Tok}
    {pos2 : Nat} {evs : List Event}
    (h : ptoken r p b pos mx = (mx2, some (pos2, evs))) :
    ∃ mx1, p b pos mx = (mx1, some (pos2, evs)) ∧ mx2 = updMax mx1 r pos pos2 := by
  unfold ptoken at h
  split at h
  · simp at h
  · rename_i mx1 pos1 ev1 heq
    simp only [Prod.mk.injEq, Option.some.injEq] at h
    obtain ⟨h1, h2, h3⟩ := h
    subst h2 h3
    exact ⟨mx1, heq, h1.symm⟩

theorem ptoken_intro {r : pegRule} {p : PParser} {b : List Char} {pos pos1 : Nat}
    {mx mx1 : Tok} {ev1 : List Event} (hp : p b pos mx = (mx1, some (pos1, ev1))) :
    ptoken r p b pos mx = (updMax mx1 r pos pos1, some (pos1, ev1)) := by
  unfold ptoken
  rw [hp]

theorem ptoken_fail {r : pegRule} {p : PParser} {b : List Char} {pos : Nat} {mx mx1 : Tok}
    (hp : p b pos mx = (mx1, none)) : ptoken r p b pos mx = (mx1, none) := by
  unfold ptoken
  rw [hp]

theorem pcapture_inv {p : PParser} {mk : String → Event} {b : List Char} {pos : Nat}
    {mx mx2 : Tok} {pos2 : Nat} {evs : List Event}
    (h : pcapture p mk b pos mx = (mx2, some (pos2, evs))) :
    ∃ mx1 ev1, p b pos mx = (mx1, some (pos2, ev1)) ∧
      evs = ev1 ++ [mk (textOf b pos pos2)] ∧ mx2 = updMax mx1 .pegText pos pos2 := by
  unfold pcapture at h
  split at h
  · simp at h
  · rename_i mx1 pos1 ev1 heq
    simp only [Prod.mk.injEq, Option.some.injEq] at h
    obtain ⟨h1, h2, h3⟩ := h
    subst h2
    exact ⟨mx1, ev1, heq, h3.symm, h1.symm⟩

theorem pcapture_intro {p : PParser} {mk : String → Event} {b : List Char} {pos pos1 : Nat}
    {mx mx1 : Tok} {ev1 : List Event} (hp : p b pos mx = (mx1, some (pos1, ev1))) :
    pcapture p mk b pos mx =
      (updMax mx1 .pegText pos pos1, some (pos1, ev1 ++ [mk (textOf b pos pos1)])) := by
  unfold pcapture
  rw [hp]

theorem pcapture_fail {p : PParser} {mk : String → Event} {b : List Char} {pos : Nat}
    {mx mx1 : Tok} (hp : p b pos mx = (mx1, none)) :
    pcapture p mk b pos mx = (mx1, none) := by
  unfold pcapture
  rw [hp]

theorem pnot_inv {p : PParser} {b : List Char} {pos : Nat} {mx mx2 : Tok} {pos2 : Nat}
    {evs : List Event} (h : pnot p b pos mx = (mx2, some (pos2, evs))) :
    pos2 = pos ∧ evs = [] ∧ p b pos mx = (mx2, none) := by
  unfold pnot at h
  split at h
  · simp at h
  · rename_i mx1 heq
    simp only [Prod.mk.injEq, Option.some.injEq] at h
    obtain ⟨h1, h2, h3⟩ := h
    subst h1
    exact ⟨h2.symm, h3.symm, heq⟩

theorem pnot_intro {p : PParser} {b : List Char} {pos : Nat} {mx mx1 : Tok}
    (hp : p b pos mx = (mx1, none)) : pnot p b pos mx = (mx1, some (pos, [])) := by
  unfold pnot
  rw [hp]

theorem popt_inv {p : PParser} {b : List Char} {pos : Nat} {mx mx2 : Tok}
    {r : Nat × List Event} (h : popt p b pos mx = (mx2, some r)) :
    p b pos mx = (mx2, some r) ∨ (p b pos mx = (mx2, none) ∧ r = (pos, [])) := by
  unfold popt at h
  split at h
  · rename_i mx1 r1 heq
    simp only [Prod.mk.injEq, Option.some.injEq] at h
    obtain ⟨h1, h2⟩ := h
    subst h1 h2
    exact Or.inl heq
  · rename_i mx1 heq
    simp only [Prod.mk.injEq, Option.some.injEq] at h
    obtain ⟨h1, h2⟩ := h
    subst h1
    exact Or.inr ⟨heq, h2.symm⟩

theorem popt_intro_fst {p : PParser} {b : List Char} {pos : Nat} {mx mx1 : Tok}
    {r : Nat × List Event} (hp : p b pos mx = (mx1, some r)) :
    popt p b pos mx = (mx1, some r) := by
  unfold popt
  rw [hp]

theorem popt_intro_snd {p : PParser} {b : List Char} {pos : Nat} {mx mx1 : Tok}
    (hp : p b pos mx = (mx1, none)) : popt p b pos mx = (mx1, some (pos, [])) := by
  unfold popt
  rw [hp]

theorem pemit_eq (e : Event) (b : List Char) (pos : Nat) (mx : Tok) :
    pemit e b pos mx = (mx, some (pos, [e])) := rfl

/-! ### Specifications of the base matchers -/

theorem pchar_inv {c : Char} {b : List Char} {pos : Nat} {mx mx2 : Tok} {pos2 : Nat}
    {evs : List Event} (h : pchar c b pos mx = (mx2, some (pos2, evs))) :
    mx2 = mx ∧ pos2 = pos + 1 ∧ evs = [] ∧ b.get? pos = some c := by
  unfold pchar at h
  split at h
  · rename_i c' heq
    split at h
    · rename_i hc
      simp only [Prod.mk.injEq, Option.some.injEq] at h
      obtain ⟨h1, h2, h3⟩ := h
      subst hc
      exact ⟨h1.symm, h2.symm, h3.symm, heq⟩
    · simp at h
  · simp at h

theorem pchar_intro {c : Char} {b : List Char} {pos : Nat} (mx : Tok)
    (h : b.get? pos = some c) : pchar c b pos mx = (mx, some (pos + 1, [])) := by
  unfold pchar
  rw [h]
  simp

theorem pchar_fail {c c' : Char} {b : List Char} {pos : Nat} (mx : Tok)
    (h : b.get? pos = some c') (hne : c' ≠ c) : pchar c b pos mx = (mx, none) := by
  unfold pchar
  rw [h]
  simp [hne]

theorem pchar_fail_end {c : Char} {b : List Char} {pos : Nat} (mx : Tok)
    (h : b.get? pos = none) : pchar c b pos mx = (mx, none) := by
  unfold pchar
  rw [h]

theorem pclass_inv {f : Char → Bool} {b : List Char} {pos : Nat} {mx mx2 : Tok} {pos2 : Nat}
    {evs : List Event} (h : pclass f b pos mx = (mx2, some (pos2, evs))) :
    mx2 = mx ∧ pos2 = pos + 1 ∧ evs = [] ∧ ∃ c, b.get? pos = some c ∧ f c = true := by
  unfold pclass at h
  split at h
  · rename_i c' heq
    split at h
    · rename_i hc
      simp only [Prod.mk.injEq, Option.some.injEq] at h
      obtain ⟨h1, h2, h3⟩ := h
      exact ⟨h1.symm, h2.symm, h3.symm, c', heq, hc⟩
    · simp at h
  · simp at h

theorem pclass_intro {f : Char → Bool} {b : List Char} {pos : Nat} {c : Char} (mx : Tok)
    (h : b.get? pos = some c) (hc : f c = true) :
    pclass f b pos mx = (mx, some (pos + 1, [])) := by
  unfold pclass
  rw [h]
  simp [hc]

theorem pclass_fail {f : Char → Bool} {b : List Char} {pos : Nat} {c : Char} (mx : Tok)
    (h : b.get? pos = some c) (hc : f c = false) : pclass f b pos mx = (mx, none) := by
  unfold pclass
  rw [h]
  simp [hc]

theorem pclass_fail_end {f : Char → Bool} {b : List Char} {pos : Nat} (mx : Tok)
    (h : b.get? pos = none) : pclass f b pos mx = (mx, none) := by
  unfold pclass
  rw [h]

theorem pany_inv {b : List Char} {pos : Nat} {mx mx2 : Tok} {pos2 : Nat}
    {evs : List Event} (h : pany b pos mx = (mx2, some (pos2, evs))) :
    mx2 = mx ∧ pos2 = pos + 1 ∧ evs = [] ∧ pos < b.length := by
  unfold pany at h
  split at h
  · rename_i hlt
    simp only [Prod.mk.injEq, Option.some.injEq] at h
    obtain ⟨h1, h2, h3⟩ := h
    exact ⟨h1.symm, h2.symm, h3.symm, hlt⟩
  · simp at h

theorem pany_intro {b : List Char} {pos : Nat} (mx : Tok) (h : pos < b.length) :
    pany b pos mx = (mx, some (pos + 1, [])) := by
  unfold pany
  simp [h]

theorem pany_fail {b : List Char} {pos : Nat} (mx : Tok) (h : ¬ pos < b.length) :
    pany b pos mx = (mx, none) := by
  unfold pany
  simp [h]

theorem pliteral_inv {l : List Char} {b : List Char} {pos : Nat} {mx mx2 : Tok} {pos2 : Nat}
    {evs : List Event} (h : pliteral l b pos mx = (mx2, some (pos2, evs))) :
    mx2 = mx ∧ pos2 = pos + l.length ∧ evs = [] ∧ (b.drop pos).take l.length = l := by
  unfold pliteral at h
  split at h
  · rename_i hm
    simp only [Prod.mk.injEq, Option.some.injEq] at h
    obtain ⟨h1, h2, h3⟩ := h
    unfold matchesAt at hm
    exact ⟨h1.symm, h2.symm, h3.symm, of_decide_eq_true hm⟩
  · simp at h

theorem pliteral_intro {l : List Char} {b : List Char} {pos : Nat} (mx : Tok)
    (h : (b.drop pos).take l.length = l) :
    pliteral l b pos mx = (mx, some (pos + l.length, [])) := by
  unfold pliteral matchesAt
  simp [h]

theorem pliteral_fail {l : List Char} {b : List Char} {pos : Nat} (mx : Tok)
    (h : (b.drop pos).take l.length ≠ l) : pliteral l b pos mx = (mx, none) := by
  unfold pliteral matchesAt
  simp [h]

theorem pliteral_fail_head {c c' : Char} {l : List Char} {b : List Char} {pos : Nat}
    (mx : Tok) (hget : b.get? pos = some c') (hne : c' ≠ c) :
    pliteral (c :: l) b pos mx = (mx, none) := by
  apply pliteral_fail
  rw [drop_cons_of_get b pos c' hget]
  simp only [List.length_cons, List.take_succ_cons, ne_eq, List.cons.injEq, not_and]
  intro hc
  exact absurd hc hne

theorem pliteral_fail_end {c : Char} {l : List Char} {b : List Char} {pos : Nat}
    (mx : Tok) (hget : b.get? pos = none) : pliteral (c :: l) b pos mx = (mx, none) := by
  apply pliteral_fail
  have : b.drop pos = [] := by
    cases hd : b.drop pos with
    | nil => rfl
    | cons x xs => rw [(get_of_drop_cons b pos x xs hd).1] at hget; cases hget
  rw [this]
  simp

/-- The text of a literal match is the literal itself. -/
theorem textOf_of_take {l : List Char} {b : List Char} {pos : Nat}
    (h : (b.drop pos).take l.length = l) : textOf b pos (pos + l.length) = l.asString := by
  unfold textOf
  rw [Nat.add_sub_cancel_left, h]

/-! ### Greedy-repetition characterizations -/

theorem pstarAux_class (f : Char → Bool) (b : List Char) (fuel pos : Nat) (mx : Tok)
    (hfuel : b.length - pos ≤ fuel) :
    pstarAux (pclass f) b fuel pos mx =
      (mx, some (pos + ((b.drop pos).takeWhile f).length, [])) := by
  induction fuel generalizing pos with
  | zero =>
    have hle : b.length ≤ pos := by omega
    have hdrop : b.drop pos = [] := List.drop_eq_nil_of_le hle
    rw [hdrop]
    simp [pstarAux]
  | succ n ih =>
    cases hget : b.get? pos with
    | none =>
      have hdrop : b.drop pos = [] := by
        cases hd : b.drop pos with
        | nil => rfl
        | cons x xs => rw [(get_of_drop_cons b pos x xs hd).1] at hget; cases hget
      unfold pstarAux
      rw [pclass_fail_end mx hget, hdrop]
      simp
    | some c =>
      have hdrop := drop_cons_of_get b pos c hget
      by_cases hc : f c = true
      · have hcl := @pclass_intro f b pos c mx hget hc
        have hlt : pos < b.length := by
          rcases List.get?_eq_some.mp hget with ⟨hl, _⟩
          exact hl
        unfold pstarAux
        rw [hcl]
        have hnle : ¬ (pos + 1 ≤ pos) := by omega
        simp only [hnle, if_false]
        rw [ih (pos + 1) (by omega)]
        rw [hdrop, List.takeWhile_cons_of_pos hc]
        simp only [List.length_cons, List.nil_append]
        have : pos + 1 + ((b.drop (pos + 1)).takeWhile f).length =
            pos + (((b.drop (pos + 1)).takeWhile f).length + 1) := by omega
        rw [this]
      · have hc' : f c = false := by simpa using hc
        unfold pstarAux
        rw [pclass_fail mx hget hc', hdrop, List.takeWhile_cons_of_neg (by simp [hc'])]
        simp

theorem pstar_class (f : Char → Bool) (b : List Char) (pos : Nat) (mx : Tok) :
    pstar (pclass f) b pos mx =
      (mx, some (pos + ((b.drop pos).takeWhile f).length, [])) := by
  unfold pstar
  exact pstarAux_class f b _ pos mx (by omega)

/-- Greedy `[0-9]+`-style runs: `pplus (pclass f)` consumes exactly the maximal
`f`-run at the current position, and requires it to be nonempty. -/
theorem pplus_class_inv {f : Char → Bool} {b : List Char} {pos : Nat} {mx mx2 : Tok}
    {pos2 : Nat} {evs : List Event}
    (h : pplus (pclass f) b pos mx = (mx2, some (pos2, evs))) :
    mx2 = mx ∧ evs = [] ∧ pos2 = pos + ((b.drop pos).takeWhile f).length ∧
      (b.drop pos).takeWhile f ≠ [] := by
  unfold pplus at h
  obtain ⟨mx1, pos1, ev1, ev2, hp, hq, hevs⟩ := pseq_inv h
  obtain ⟨hmx1, hpos1, hev1, c, hget, hc⟩ := pclass_inv hp
  rw [hmx1, hpos1, pstar_class f b (pos + 1) mx] at hq
  simp only [Prod.mk.injEq, Option.some.injEq] at hq
  obtain ⟨hq1, hq2, hq3⟩ := hq
  subst hq1 hq3 hev1 hevs
  have hdrop := drop_cons_of_get b pos c hget
  rw [hdrop, List.takeWhile_cons_of_pos hc]
  refine ⟨rfl, rfl, by simp; omega, by simp⟩

theorem pplus_class_intro {f : Char → Bool} {b : List Char} {pos : Nat} (mx : Tok)
    (h : (b.drop pos).takeWhile f ≠ []) :
    pplus (pclass f) b pos mx =
      (mx, some (pos + ((b.drop pos).takeWhile f).length, [])) := by
  cases hd : b.drop pos with
  | nil => rw [hd] at h; simp at h
  | cons c r =>
    obtain ⟨hget, hdrop1⟩ := get_of_drop_cons b pos c r hd
    rw [hd] at h
    by_cases hc : f c = true
    · unfold pplus
      rw [pseq_intro (pclass_intro mx hget hc) (pstar_class f b (pos + 1) mx)]
      rw [List.takeWhile_cons_of_pos hc, hdrop1]
      simp only [List.nil_append, List.length_cons, Prod.mk.injEq, Option.some.injEq,
        true_and]
      exact ⟨by omega, trivial⟩
    · rw [List.takeWhile_cons_of_neg (by simpa using hc)] at h
      simp at h

/-! ### Failure lemmas for the spacing and end-of-line rules -/

theorem pstar_stuck {p : PParser} {b : List Char} {pos : Nat} {mx : Tok}
    (h : p b pos mx = (mx, none)) : pstar p b pos mx = (mx, some (pos, [])) := by
  unfold pstar
  cases hf : b.length + 1 - pos with
  | zero => rfl
  | succ n =>
    unfold pstarAux
    rw [h]

theorem pEndOfLine_fail_char {b : List Char} {pos : Nat} {c : Char} (mx : Tok)
    (hget : b.get? pos = some c) (h1 : c ≠ '\r') (h2 : c ≠ '\n') :
    pEndOfLine b pos mx = (mx, none) := by
  unfold pEndOfLine
  apply ptoken_fail
  apply palt_intro_snd (pliteral_fail_head mx hget h1)
  apply palt_intro_snd (pchar_fail mx hget h2)
  exact pchar_fail mx hget h1

theorem pEndOfLine_fail_end {b : List Char} {pos : Nat} (mx : Tok)
    (hget : b.get? pos = none) : pEndOfLine b pos mx = (mx, none) := by
  unfold pEndOfLine
  apply ptoken_fail
  apply palt_intro_snd (pliteral_fail_end mx hget)
  apply palt_intro_snd (pchar_fail_end mx hget)
  exact pchar_fail_end mx hget

theorem pWhitespace_fail_char {b : List Char} {pos : Nat} {c : Char} (mx : Tok)
    (hget : b.get? pos = some c) (h1 : c ≠ ' ') (h2 : c ≠ '\t') :
    pWhitespace b pos mx = (mx, none) := by
  unfold pWhitespace
  apply ptoken_fail
  apply palt_intro_snd (pchar_fail mx hget h1)
  exact pchar_fail mx hget h2

theorem pWhitespace_fail_end {b : List Char} {pos : Nat} (mx : Tok)
    (hget : b.get? pos = none) : pWhitespace b pos mx = (mx, none) := by
  unfold pWhitespace
  apply ptoken_fail
  apply palt_intro_snd (pchar_fail_end mx hget)
  exact pchar_fail_end mx hget

theorem pSpace_fail_char {b : List Char} {pos : Nat} {c : Char} (mx : Tok)
    (hget : b.get? pos = some c) (h1 : c ≠ ' ') (h2 : c ≠ '\t') (h3 : c ≠ '\r')
    (h4 : c ≠ '\n') : pSpace b pos mx = (mx, none) := by
  unfold pSpace
  apply ptoken_fail
  apply palt_intro_snd (pWhitespace_fail_char mx hget h1 h2)
  exact pEndOfLine_fail_char mx hget h3 h4

theorem pSpace_fail_end {b : List Char} {pos : Nat} (mx : Tok)
    (hget : b.get? pos = none) : pSpace b pos mx = (mx, none) := by
  unfold pSpace
  apply ptoken_fail
  apply palt_intro_snd (pWhitespace_fail_end mx hget)
  exact pEndOfLine_fail_end mx hget

theorem pSpacing_stuck_char {b : List Char} {pos : Nat} {c : Char} (mx : Tok)
    (hget : b.get? pos = some c) (h1 : c ≠ ' ') (h2 : c ≠ '\t') (h3 : c ≠ '\r')
    (h4 : c ≠ '\n') : pSpacing b pos mx = (mx, some (pos, [])) := by
  unfold pSpacing
  rw [ptoken_intro (pstar_stuck (pSpace_fail_char mx hget h1 h2 h3 h4))]
  simp [updMax]

theorem pSpacing_stuck_end {b : List Char} {pos : Nat} (mx : Tok)
    (hget : b.get? pos = none) : pSpacing b pos mx = (mx, some (pos, [])) := by
  unfold pSpacing
  rw [ptoken_intro (pstar_stuck (pSpace_fail_end mx hget))]
  simp [updMax]

theorem pWhiteSpacing_stuck_char {b : List Char} {pos : Nat} {c : Char} (mx : Tok)
    (hget : b.get? pos = some c) (h1 : c ≠ ' ') (h2 : c ≠ '\t') :
    pWhiteSpacing b pos mx = (mx, some (pos, [])) := by
  unfold pWhiteSpacing
  rw [ptoken_intro (pstar_stuck (pWhitespace_fail_char mx hget h1 h2))]
  simp [updMax]

theorem pWhiteSpacing_stuck_end {b : List Char} {pos : Nat} (mx : Tok)
    (hget : b.get? pos = none) : pWhiteSpacing b pos mx = (mx, some (pos, [])) := by
  unfold pWhiteSpacing
  rw [ptoken_intro (pstar_stuck (pWhitespace_fail_end mx hget))]
  simp [updMax]

theorem pEndOfLineStar_stuck_end {b : List Char} {pos : Nat} (mx : Tok)
    (hget : b.get? pos = none) : pstar pEndOfLine b pos mx = (mx, some (pos, [])) :=
  pstar_stuck (pEndOfLine_fail_end mx hget)

/-- The comment-body loop `(!EndOfLine .)*` consumes every remaining character
when none of them is a line terminator. -/
theorem pstarAux_commentBody (b : List Char) (fuel pos : Nat) (mx : Tok)
    (hpos : pos ≤ b.length) (hfuel : b.length - pos ≤ fuel)
    (hno : NoEol (b.drop pos)) :
    pstarAux (pseq (pnot pEndOfLine) pany) b fuel pos mx = (mx, some (b.length, [])) := by
  induction fuel generalizing pos with
  | zero =>
    have : pos = b.length := by omega
    subst this
    rfl
  | succ n ih =>
    cases hget : b.get? pos with
    | none =>
      have hlen : b.length ≤ pos := List.get?_eq_none.mp hget
      have hpe : pos = b.length := by omega
      subst hpe
      unfold pstarAux
      rw [pseq_fail_snd (pnot_intro (pEndOfLine_fail_end mx hget))
        (pany_fail mx (by omega))]
    | some c =>
      have hdrop := drop_cons_of_get b pos c hget
      have hc : c ≠ '\n' ∧ c ≠ '\r' := by
        apply hno
        rw [hdrop]
        exact List.mem_cons_self c _
      have hlt : pos < b.length := (List.get?_eq_some.mp hget).1
      have hbody : pseq (pnot pEndOfLine) pany b pos mx = (mx, some (pos + 1, [])) := by
        rw [pseq_intro (pnot_intro (pEndOfLine_fail_char mx hget hc.2 hc.1))
          (pany_intro mx hlt)]
        rfl
      unfold pstarAux
      rw [hbody]
      have hnle : ¬ (pos + 1 ≤ pos) := by omega
      simp only [hnle, if_false]
      have hno1 : NoEol (b.drop (pos + 1)) := by
        intro x hx
        apply hno
        rw [hdrop]
        exact List.mem_cons_of_mem c hx
      rw [ih (pos + 1) (by omega) (by omega) hno1]
      rfl

/-! ### Statement-level lemmas for comment lines -/

theorem pActionSwitch_fail_hash {b : List Char} {pos : Nat} (mx : Tok)
    (hget : b.get? pos = some '#') : pActionSwitch b pos mx = (mx, none) := by
  unfold pActionSwitch
  rw [hget]
  simp only [reduceIte, Char.reduceEq]
  exact pliteral_fail_head mx hget (by decide)

theorem pActionSwitch_fail_slash {b : List Char} {pos : Nat} (mx : Tok)
    (hget : b.get? pos = some '/') : pActionSwitch b pos mx = (mx, none) := by
  unfold pActionSwitch
  rw [hget]
  simp only [reduceIte, Char.reduceEq]
  exact pliteral_fail_head mx hget (by decide)

theorem pActionSwitch_fail_end {b : List Char} {pos : Nat} (mx : Tok)
    (hget : b.get? pos = none) : pActionSwitch b pos mx = (mx, none) := by
  unfold pActionSwitch
  rw [hget]
  exact pliteral_fail_end mx hget

theorem pActionBody_fail_hash {b : List Char} {pos : Nat} (mx : Tok)
    (hget : b.get? pos = some '#') : pActionBody b pos mx = (mx, none) := by
  unfold pActionBody
  apply palt_intro_snd (pliteral_fail_head mx hget (by decide))
  apply palt_intro_snd (pliteral_fail_head mx hget (by decide))
  apply palt_intro_snd (pliteral_fail_head mx hget (by decide))
  exact pActionSwitch_fail_hash mx hget

theorem pActionBody_fail_slash {b : List Char} {pos : Nat} (mx : Tok)
    (hget : b.get? pos = some '/') : pActionBody b pos mx = (mx, none) := by
  unfold pActionBody
  apply palt_intro_snd (pliteral_fail_head mx hget (by decide))
  apply palt_intro_snd (pliteral_fail_head mx hget (by decide))
  apply palt_intro_snd (pliteral_fail_head mx hget (by decide))
  exact pActionSwitch_fail_slash mx hget

theorem pActionBody_fail_end {b : List Char} {pos : Nat} (mx : Tok)
    (hget : b.get? pos = none) : pActionBody b pos mx = (mx, none) := by
  unfold pActionBody
  apply palt_intro_snd (pliteral_fail_end mx hget)
  apply palt_intro_snd (pliteral_fail_end mx hget)
  apply palt_intro_snd (pliteral_fail_end mx hget)
  exact pActionSwitch_fail_end mx hget

theorem pExpr_fail_of_action {b : List Char} {pos : Nat} (mx : Tok)
    (h : pActionBody b pos mx = (mx, none)) : pExpr b pos mx = (mx, none) := by
  unfold pExpr
  exact ptoken_fail (pseq_fail_fst (pcapture_fail (ptoken_fail h)))

theorem pIdentifier_fail_char {b : List Char} {pos : Nat} {c : Char} (mx : Tok)
    (hget : b.get? pos = some c) (hc : identChar c = false) :
    pIdentifier b pos mx = (mx, none) := by
  unfold pIdentifier pplus
  exact ptoken_fail (pseq_fail_fst (pclass_fail mx hget hc))

theorem pIdentifier_fail_end {b : List Char} {pos : Nat} (mx : Tok)
    (hget : b.get? pos = none) : pIdentifier b pos mx = (mx, none) := by
  unfold pIdentifier pplus
  exact ptoken_fail (pseq_fail_fst (pclass_fail_end mx hget))

theorem pDeclaration_fail_of_identifier {b : List Char} {pos : Nat} (mx : Tok)
    (h : pIdentifier b pos mx = (mx, none)) : pDeclaration b pos mx = (mx, none) := by
  unfold pDeclaration
  exact ptoken_fail (pseq_fail_fst (pcapture_fail h))

theorem pComment_fail_end {b : List Char} {pos : Nat} (mx : Tok)
    (hget : b.get? pos = none) : pComment b pos mx = (mx, none) := by
  unfold pComment pCommentBody
  apply ptoken_fail
  apply palt_intro_snd (pseq_fail_fst (pchar_fail_end mx hget))
  exact pseq_fail_fst (pliteral_fail_end mx hget)

theorem pStatement_fail_end {b : List Char} {pos : Nat} (mx : Tok)
    (hget : b.get? pos = none) : pStatement b pos mx = (mx, none) := by
  unfold pStatement
  apply ptoken_fail
  apply pseq_fail_snd (pSpacing_stuck_end mx hget)
  apply pseq_fail_fst
  apply palt_intro_snd (pExpr_fail_of_action mx (pActionBody_fail_end mx hget))
  apply palt_intro_snd (pDeclaration_fail_of_identifier mx (pIdentifier_fail_end mx hget))
  exact pComment_fail_end mx hget

/-- The `#` alternative of `Comment` consumes to the end of a terminator-free
tail and emits no builder call. -/
theorem pComment_hash {b : List Char} {pos : Nat} (mx : Tok)
    (hget : b.get? pos = some '#') (hno : NoEol (b.drop (pos + 1))) :
    pComment b pos mx = (updMax mx .comment pos b.length, some (b.length, [])) := by
  have hlt : pos < b.length := (List.get?_eq_some.mp hget).1
  have hstar : pstar (pseq (pnot pEndOfLine) pany) b (pos + 1) mx =
      (mx, some (b.length, [])) := by
    unfold pstar
    exact pstarAux_commentBody b _ (pos + 1) mx (by omega) (by omega) hno
  unfold pComment pCommentBody
  rw [ptoken_intro (palt_intro_fst (pseq_intro (pchar_intro mx hget) hstar))]
  rfl

/-- The `//` alternative of `Comment` consumes to the end of a terminator-free
tail and emits exactly the `LineDone` builder call. -/
theorem pComment_slash {b : List Char} {pos : Nat} (mx : Tok)
    (htake : (b.drop pos).take 2 = ['/', '/']) (hlen : pos + 2 ≤ b.length)
    (hno : NoEol (b.drop (pos + 2))) :
    pComment b pos mx =
      (updMax mx .comment pos b.length, some (b.length, [Event.lineDone])) := by
  have hget : b.get? pos = some '/' := by
    cases hd : b.drop pos with
    | nil => rw [hd] at htake; simp at htake
    | cons x xs =>
      rw [hd] at htake
      simp only [List.take_succ_cons, List.cons.injEq] at htake
      rw [htake.1] at hd
      exact (get_of_drop_cons b pos '/' xs hd).1
  have hstar : pstar (pseq (pnot pEndOfLine) pany) b (pos + 2) mx =
      (mx, some (b.length, [])) := by
    unfold pstar
    exact pstarAux_commentBody b _ (pos + 2) mx hlen (by omega) hno
  have hlit : pliteral ['/', '/'] b pos mx = (mx, some (pos + 2, [])) := by
    have := @pliteral_intro (['/', '/']) b pos mx (by simpa using htake)
    simpa using this
  unfold pComment pCommentBody
  have hfirst : pseq (pchar '#') (pstar (pseq (pnot pEndOfLine) pany)) b pos mx =
      (mx, none) := pseq_fail_fst (pchar_fail mx hget (by decide))
  apply Eq.trans (ptoken_intro (palt_intro_snd hfirst
    (pseq_intro hlit (pseq_intro hstar (pemit_eq .lineDone b b.length mx)))))
  rfl

theorem pEndOfFile_at_end {b : List Char} (mx : Tok) :
    ptoken .endOfFile (pnot pany) b b.length mx = (mx, some (b.length, [])) := by
  rw [ptoken_intro (pnot_intro (pany_fail mx (by omega)))]
  simp [updMax]

theorem updMax_gt {mx : Tok} {r : pegRule} {bp e : Nat} (h1 : bp ≠ e)
    (h2 : e > mx.endPos) : updMax mx r bp e = ⟨r, bp, e⟩ := by
  unfold updMax
  simp [h1, h2]

theorem updMax_le {mx : Tok} {r : pegRule} {bp e : Nat} (h : e ≤ mx.endPos) :
    updMax mx r bp e = mx := by
  unfold updMax
  have : ¬ (bp ≠ e ∧ e > mx.endPos) := by omega
  simp [this]

/-- A whole script that is a single `#` comment: parses, emits no builder
call. -/
theorem scriptRun_hash (body : List Char) (hno : NoEol body) :
    scriptRunL ('#' :: body) =
      (⟨.comment, 0, ('#' :: body).length⟩, some (('#' :: body).length, [])) := by
  set b := '#' :: body with hb
  have hget0 : b.get? 0 = some '#' := rfl
  have hno' : NoEol (b.drop 1) := by
    intro c hc
    exact hno c (by simpa [hb] using hc)
  have hsp0 : pSpacing b 0 tok0 = (tok0, some (0, [])) :=
    pSpacing_stuck_char tok0 hget0 (by decide) (by decide) (by decide) (by decide)
  have hexpr : pExpr b 0 tok0 = (tok0, none) :=
    pExpr_fail_of_action tok0 (pActionBody_fail_hash tok0 hget0)
  have hdecl : pDeclaration b 0 tok0 = (tok0, none) :=
    pDeclaration_fail_of_identifier tok0 (pIdentifier_fail_char tok0 hget0 (by decide))
  have hlen : 0 < b.length := by rw [hb]; simp
  have hmxC : updMax tok0 .comment 0 b.length = ⟨.comment, 0, b.length⟩ :=
    updMax_gt (by omega) (by simp [tok0]; omega)
  have hcom : pComment b 0 tok0 = (⟨.comment, 0, b.length⟩, some (b.length, [])) := by
    rw [pComment_hash tok0 hget0 hno', hmxC]
  set mxC : Tok := ⟨.comment, 0, b.length⟩ with hmxCd
  have hgetEnd : b.get? b.length = none := List.get?_eq_none.mpr (by omega)
  have hstmt : pStatement b 0 tok0 = (mxC, some (b.length, [])) := by
    unfold pStatement
    rw [ptoken_intro (pseq_intro hsp0 (pseq_intro
      (palt_intro_snd hexpr (palt_intro_snd hdecl hcom))
      (pseq_intro (pSpacing_stuck_end mxC hgetEnd)
        (pEndOfLineStar_stuck_end mxC hgetEnd))))]
    rw [updMax_le (by simp [hmxCd])]
    rfl
  have hplus : pplus pStatement b 0 tok0 = (mxC, some (b.length, [])) := by
    unfold pplus
    rw [pseq_intro hstmt (pstar_stuck (pStatement_fail_end mxC hgetEnd))]
    rfl
  unfold scriptRunL pScript
  rw [ptoken_intro (pseq_intro hsp0 (pseq_intro hplus (pEndOfFile_at_end mxC)))]
  rw [updMax_le (by simp [hmxCd])]
  rfl

/-- A whole script that is a single `//` comment: parses, emits exactly the
`LineDone` builder call. -/
theorem scriptRun_slash (body : List Char) (hno : NoEol body) :
    scriptRunL ('/' :: '/' :: body) =
      (⟨.comment, 0, ('/' :: '/' :: body).length⟩,
        some (('/' :: '/' :: body).length, [Event.lineDone])) := by
  set b := '/' :: '/' :: body with hb
  have hget0 : b.get? 0 = some '/' := rfl
  have hno' : NoEol (b.drop 2) := by
    intro c hc
    exact hno c (by simpa [hb] using hc)
  have hsp0 : pSpacing b 0 tok0 = (tok0, some (0, [])) :=
    pSpacing_stuck_char tok0 hget0 (by decide) (by decide) (by decide) (by decide)
  have hexpr : pExpr b 0 tok0 = (tok0, none) :=
    pExpr_fail_of_action tok0 (pActionBody_fail_slash tok0 hget0)
  have hdecl : pDeclaration b 0 tok0 = (tok0, none) :=
    pDeclaration_fail_of_identifier tok0 (pIdentifier_fail_char tok0 hget0 (by decide))
  have hlen : 2 ≤ b.length := by rw [hb]; simp
  have hmxC : updMax tok0 .comment 0 b.length = ⟨.comment, 0, b.length⟩ :=
    updMax_gt (by omega) (by simp [tok0]; omega)
  have hcom : pComment b 0 tok0 =
      (⟨.comment, 0, b.length⟩, some (b.length, [Event.lineDone])) := by
    rw [pComment_slash tok0 (by rw [hb]; rfl) (by omega) hno', hmxC]
  set mxC : Tok := ⟨.comment, 0, b.length⟩ with hmxCd
  have hgetEnd : b.get? b.length = none := List.get?_eq_none.mpr (by omega)
  have hstmt : pStatement b 0 tok0 = (mxC, some (b.length, [Event.lineDone])) := by
    unfold pStatement
    rw [ptoken_intro (pseq_intro hsp0 (pseq_intro
      (palt_intro_snd hexpr (palt_intro_snd hdecl hcom))
      (pseq_intro (pSpacing_stuck_end mxC hgetEnd)
        (pEndOfLineStar_stuck_end mxC hgetEnd))))]
    rw [updMax_le (by simp [hmxCd])]
    rfl
  have hplus : pplus pStatement b 0 tok0 = (mxC, some (b.length, [Event.lineDone])) := by
    unfold pplus
    rw [pseq_intro hstmt (pstar_stuck (pStatement_fail_end mxC hgetEnd))]
    rfl
  unfold scriptRunL pScript
  rw [ptoken_intro (pseq_intro hsp0 (pseq_intro hplus (pEndOfFile_at_end mxC)))]
  rw [updMax_le (by simp [hmxCd])]
  rfl

/-! ### Shape of the CidrValue and IpValue matchers -/

theorem textOf_full (b : List Char) : textOf b 0 b.length = b.asString := by
  unfold textOf
  simp

theorem drop_after_run {b : List Char} {pos : Nat} {d rest : List Char}
    (hd : b.drop pos = d ++ rest) : b.drop (pos + d.length) = rest := by
  have h1 : (b.drop pos).drop d.length = rest := by
    rw [hd]
    exact List.drop_left d rest
  rw [List.drop_drop] at h1
  exact h1

/-- A maximal digit run: `pDigits` consumes it whole and stops right before
`rest`. -/
theorem pDigits_run {b : List Char} {pos : Nat} (mx : Tok) {d rest : List Char}
    (hd : b.drop pos = d ++ rest) (hne : d ≠ []) (hall : d.all digitChar = true)
    (hrest : rest = [] ∨ ∃ c r, rest = c :: r ∧ digitChar c = false) :
    pDigits b pos mx = (mx, some (pos + d.length, [])) ∧
      b.drop (pos + d.length) = rest := by
  have htw : (b.drop pos).takeWhile digitChar = d := by
    rw [hd]
    rcases hrest with h | ⟨c, r, hr, hc⟩
    · rw [h, List.append_nil]
      exact takeWhile_all_self digitChar d hall
    · rw [hr]
      exact takeWhile_all_append digitChar d c r hall hc
  refine ⟨?_, drop_after_run hd⟩
  unfold pDigits
  rw [pplus_class_intro mx (by rw [htw]; exact hne), htw]

/-- Forward direction: every cidr-shaped buffer is consumed whole by the
`CidrValue` matcher. -/
theorem pCidrBody_accepts {b : List Char} (mx : Tok) (h : CidrShaped b) :
    pCidrBody b 0 mx = (mx, some (b.length, [])) := by
  obtain ⟨d1, c1, d2, c2, d3, c3, d4, d5, hb, h1, h2, h3, h4, h5, hc1, hc2, hc3⟩ := h
  have hd0 : b.drop 0 = d1 ++ (c1 :: (d2 ++ (c2 :: (d3 ++ (c3 :: (d4 ++ ('/' :: d5))))))) := by
    rw [List.drop_zero, hb]
  obtain ⟨hr1, hdrop1⟩ := pDigits_run mx hd0 h1.1 h1.2
    (Or.inr ⟨c1, _, rfl, hc1⟩)
  set p1 := 0 + d1.length with hp1
  have hget1 : b.get? p1 = some c1 := (get_of_drop_cons b p1 c1 _ hdrop1).1
  have hlt1 : p1 < b.length := (List.get?_eq_some.mp hget1).1
  have hdrop1' : b.drop (p1 + 1) = d2 ++ (c2 :: (d3 ++ (c3 :: (d4 ++ ('/' :: d5))))) :=
    (get_of_drop_cons b p1 c1 _ hdrop1).2
  obtain ⟨hr2, hdrop2⟩ := pDigits_run mx hdrop1' h2.1 h2.2 (Or.inr ⟨c2, _, rfl, hc2⟩)
  set p2 := p1 + 1 + d2.length with hp2
  have hget2 : b.get? p2 = some c2 := (get_of_drop_cons b p2 c2 _ hdrop2).1
  have hlt2 : p2 < b.length := (List.get?_eq_some.mp hget2).1
  have hdrop2' : b.drop (p2 + 1) = d3 ++ (c3 :: (d4 ++ ('/' :: d5))) :=
    (get_of_drop_cons b p2 c2 _ hdrop2).2
  obtain ⟨hr3, hdrop3⟩ := pDigits_run mx hdrop2' h3.1 h3.2 (Or.inr ⟨c3, _, rfl, hc3⟩)
  set p3 := p2 + 1 + d3.length with hp3
  have hget3 : b.get? p3 = some c3 := (get_of_drop_cons b p3 c3 _ hdrop3).1
  have hlt3 : p3 < b.length := (List.get?_eq_some.mp hget3).1
  have hdrop3' : b.drop (p3 + 1) = d4 ++ ('/' :: d5) :=
    (get_of_drop_cons b p3 c3 _ hdrop3).2
  obtain ⟨hr4, hdrop4⟩ := pDigits_run mx hdrop3' h4.1 h4.2
    (Or.inr ⟨'/', _, rfl, by decide⟩)
  set p4 := p3 + 1 + d4.length with hp4
  have hget4 : b.get? p4 = some '/' := (get_of_drop_cons b p4 '/' _ hdrop4).1
  have hdrop4' : b.drop (p4 + 1) = d5 ++ [] :=
    by rw [(get_of_drop_cons b p4 '/' _ hdrop4).2, List.append_nil]
  obtain ⟨hr5, hdrop5⟩ := pDigits_run mx hdrop4' h5.1 h5.2 (Or.inl rfl)
  set p5 := p4 + 1 + d5.length with hp5
  have hlen : p5 = b.length := by
    have hld : (b.drop p5).length = b.length - p5 := List.length_drop p5 b
    rw [hdrop5] at hld
    have hble : b.length = d1.length + (1 + (d2.length + (1 + (d3.length +
        (1 + (d4.length + (1 + d5.length))))))) := by
      rw [hb]
      simp only [List.length_append, List.length_cons]
      omega
    omega
  unfold pCidrBody
  rw [pseq_intro hr1 (pseq_intro (pany_intro mx hlt1) (pseq_intro hr2
    (pseq_intro (pany_intro mx hlt2) (pseq_intro hr3 (pseq_intro (pany_intro mx hlt3)
    (pseq_intro hr4 (pseq_intro (pchar_intro mx hget4) hr5)))))))]
  rw [← hlen]
  rfl

theorem takeWhile_all (f : Char → Bool) (l : List Char) : (l.takeWhile f).all f = true := by
  induction l with
  | nil => rfl
  | cons x xs ih =>
    by_cases hx : f x
    · simp [List.takeWhile_cons_of_pos hx, hx, ih]
    · simp [List.takeWhile_cons_of_neg hx]

/-- What a successful `[0-9]+` run tells us: it consumed the maximal digit run
and the buffer splits accordingly. -/
theorem pDigits_inv_step {b : List Char} {pos : Nat} {mx mx2 : Tok} {pos2 : Nat}
    {evs : List Event} (h : pDigits b pos mx = (mx2, some (pos2, evs))) :
    mx2 = mx ∧ evs = [] ∧ DigitRun ((b.drop pos).takeWhile digitChar) ∧
      pos2 = pos + ((b.drop pos).takeWhile digitChar).length ∧
      b.drop pos = (b.drop pos).takeWhile digitChar ++ b.drop pos2 ∧
      b.drop pos2 = (b.drop pos).dropWhile digitChar := by
  unfold pDigits at h
  obtain ⟨hmx, hevs, hpos, hne⟩ := pplus_class_inv h
  have hdw : b.drop pos2 = (b.drop pos).dropWhile digitChar := by
    rw [hpos, ← List.drop_drop]
    exact drop_takeWhile_length digitChar (b.drop pos)
  refine ⟨hmx, hevs, ⟨hne, takeWhile_all digitChar (b.drop pos)⟩, hpos, ?_, hdw⟩
  rw [hdw]
  exact (List.takeWhile_append_dropWhile digitChar (b.drop pos)).symm

/-- A separator consumed by the wildcard right after a maximal digit run is
not a digit. -/
theorem sep_step {b : List Char} {pos : Nat} {mx mx2 : Tok} {pos2 : Nat}
    {evs : List Event} (h : pany b pos mx = (mx2, some (pos2, evs)))
    (hdw : ∃ l, b.drop pos = List.dropWhile digitChar l) :
    ∃ c, b.get? pos = some c ∧ digitChar c = false ∧
      b.drop pos = c :: b.drop (pos + 1) ∧ pos2 = pos + 1 ∧ mx2 = mx ∧ evs = [] := by
  obtain ⟨hmx, hpos, hevs, hlt⟩ := pany_inv h
  obtain ⟨l, hl⟩ := hdw
  have hget : b.get? pos = some (b.get ⟨pos, hlt⟩) := List.get?_eq_get hlt
  set c := b.get ⟨pos, hlt⟩ with hcd
  have hdropc := drop_cons_of_get b pos c hget
  have hcf : digitChar c = false := by
    apply dropWhile_cons_head digitChar l c (b.drop (pos + 1))
    rw [← hl, hdropc]
  exact ⟨c, hget, hcf, hdropc, hpos, hmx, hevs⟩

/-- Reverse direction: a whole-buffer match of the `CidrValue` matcher forces
the cidr shape. -/
theorem pCidrBody_shape {b : List Char} {mx mx2 : Tok} {evs : List Event}
    (h : pCidrBody b 0 mx = (mx2, some (b.length, evs))) : CidrShaped b := by
  unfold pCidrBody at h
  obtain ⟨m1, q1, e1, e2, hd1, h, _⟩ := pseq_inv h
  obtain ⟨m2, q2, e3, e4, ha1, h, _⟩ := pseq_inv h
  obtain ⟨m3, q3, e5, e6, hd2, h, _⟩ := pseq_inv h
  obtain ⟨m4, q4, e7, e8, ha2, h, _⟩ := pseq_inv h
  obtain ⟨m5, q5, e9, e10, hd3, h, _⟩ := pseq_inv h
  obtain ⟨m6, q6, e11, e12, ha3, h, _⟩ := pseq_inv h
  obtain ⟨m7, q7, e13, e14, hd4, h, _⟩ := pseq_inv h
  obtain ⟨m8, q8, e15, e16, hsl, hd5, _⟩ := pseq_inv h
  obtain ⟨_, _, hr1, hq1, hsplit1, hdw1⟩ := pDigits_inv_step hd1
  obtain ⟨c1, hget1, hc1, hcons1, hq2, _, _⟩ := sep_step ha1 ⟨_, hdw1⟩
  obtain ⟨_, _, hr2, hq3, hsplit2, hdw2⟩ := pDigits_inv_step hd2
  obtain ⟨c2, hget2, hc2, hcons2, hq4, _, _⟩ := sep_step ha2 ⟨_, hdw2⟩
  obtain ⟨_, _, hr3, hq5, hsplit3, hdw3⟩ := pDigits_inv_step hd3
  obtain ⟨c3, hget3, hc3, hcons3, hq6, _, _⟩ := sep_step ha3 ⟨_, hdw3⟩
  obtain ⟨_, _, hr4, hq7, hsplit4, hdw4⟩ := pDigits_inv_step hd4
  obtain ⟨_, hq8, _, hgetsl⟩ := pchar_inv hsl
  obtain ⟨_, _, hr5, hqF, hsplit5, hdw5⟩ := pDigits_inv_step hd5
  have hconsl := drop_cons_of_get b q7 '/' hgetsl
  have hdropF : b.drop b.length = [] := List.drop_length b
  rw [hdropF, List.append_nil] at hsplit5
  rw [hq8] at hr5 hsplit5
  rw [hq2] at hr2 hsplit2
  rw [hq4] at hr3 hsplit3
  rw [hq6] at hr4 hsplit4
  rw [List.drop_zero] at hr1 hsplit1
  have h4' : b.drop (q5 + 1) = (b.drop (q5 + 1)).takeWhile digitChar ++
      ('/' :: (b.drop (q7 + 1)).takeWhile digitChar) := by
    conv_lhs => rw [hsplit4]
    conv_lhs => rw [hconsl]
    conv_lhs => rw [hsplit5]
  have h3' : b.drop (q3 + 1) = (b.drop (q3 + 1)).takeWhile digitChar ++
      (c3 :: ((b.drop (q5 + 1)).takeWhile digitChar ++
        ('/' :: (b.drop (q7 + 1)).takeWhile digitChar))) := by
    conv_lhs => rw [hsplit3]
    conv_lhs => rw [hcons3]
    conv_lhs => rw [h4']
  have h2' : b.drop (q1 + 1) = (b.drop (q1 + 1)).takeWhile digitChar ++
      (c2 :: ((b.drop (q3 + 1)).takeWhile digitChar ++
        (c3 :: ((b.drop (q5 + 1)).takeWhile digitChar ++
          ('/' :: (b.drop (q7 + 1)).takeWhile digitChar))))) := by
    conv_lhs => rw [hsplit2]
    conv_lhs => rw [hcons2]
    conv_lhs => rw [h3']
  have h1' : b = b.takeWhile digitChar ++
      (c1 :: ((b.drop (q1 + 1)).takeWhile digitChar ++
        (c2 :: ((b.drop (q3 + 1)).takeWhile digitChar ++
          (c3 :: ((b.drop (q5 + 1)).takeWhile digitChar ++
            ('/' :: (b.drop (q7 + 1)).takeWhile digitChar))))))) := by
    conv_lhs => rw [hsplit1]
    conv_lhs => rw [hcons1]
    conv_lhs => rw [h2']
  exact ⟨b.takeWhile digitChar, c1, (b.drop (q1 + 1)).takeWhile digitChar, c2,
    (b.drop (q3 + 1)).takeWhile digitChar, c3, (b.drop (q5 + 1)).takeWhile digitChar,
    (b.drop (q7 + 1)).takeWhile digitChar, h1', hr1, hr2, hr3, hr4, hr5, hc1, hc2, hc3⟩

/-- Forward direction: every ip-shaped buffer is consumed whole by the
`IpValue` matcher. -/
theorem pIpBody_accepts {b : List Char} (mx : Tok) (h : IpShaped b) :
    pIpBody b 0 mx = (mx, some (b.length, [])) := by
  obtain ⟨d1, c1, d2, c2, d3, c3, d4, hb, h1, h2, h3, h4, hc1, hc2, hc3⟩ := h
  have hd0 : b.drop 0 = d1 ++ (c1 :: (d2 ++ (c2 :: (d3 ++ (c3 :: d4))))) := by
    rw [List.drop_zero, hb]
  obtain ⟨hr1, hdrop1⟩ := pDigits_run mx hd0 h1.1 h1.2 (Or.inr ⟨c1, _, rfl, hc1⟩)
  set p1 := 0 + d1.length with hp1
  have hget1 : b.get? p1 = some c1 := (get_of_drop_cons b p1 c1 _ hdrop1).1
  have hlt1 : p1 < b.length := (List.get?_eq_some.mp hget1).1
  have hdrop1' : b.drop (p1 + 1) = d2 ++ (c2 :: (d3 ++ (c3 :: d4))) :=
    (get_of_drop_cons b p1 c1 _ hdrop1).2
  obtain ⟨hr2, hdrop2⟩ := pDigits_run mx hdrop1' h2.1 h2.2 (Or.inr ⟨c2, _, rfl, hc2⟩)
  set p2 := p1 + 1 + d2.length with hp2
  have hget2 : b.get? p2 = some c2 := (get_of_drop_cons b p2 c2 _ hdrop2).1
  have hlt2 : p2 < b.length := (List.get?_eq_some.mp hget2).1
  have hdrop2' : b.drop (p2 + 1) = d3 ++ (c3 :: d4) :=
    (get_of_drop_cons b p2 c2 _ hdrop2).2
  obtain ⟨hr3, hdrop3⟩ := pDigits_run mx hdrop2' h3.1 h3.2 (Or.inr ⟨c3, _, rfl, hc3⟩)
  set p3 := p2 + 1 + d3.length with hp3
  have hget3 : b.get? p3 = some c3 := (get_of_drop_cons b p3 c3 _ hdrop3).1
  have hlt3 : p3 < b.length := (List.get?_eq_some.mp hget3).1
  have hdrop3' : b.drop (p3 + 1) = d4 ++ [] := by
    rw [(get_of_drop_cons b p3 c3 _ hdrop3).2, List.append_nil]
  obtain ⟨hr4, hdrop4⟩ := pDigits_run mx hdrop3' h4.1 h4.2 (Or.inl rfl)
  set p4 := p3 + 1 + d4.length with hp4
  have hlen : p4 = b.length := by
    have hld : (b.drop p4).length = b.length - p4 := List.length_drop p4 b
    rw [hdrop4] at hld
    have hble : b.length = d1.length + (1 + (d2.length + (1 + (d3.length +
        (1 + d4.length))))) := by
      rw [hb]
      simp only [List.length_append, List.length_cons]
      omega
    omega
  unfold pIpBody
  rw [pseq_intro hr1 (pseq_intro (pany_intro mx hlt1) (pseq_intro hr2
    (pseq_intro (pany_intro mx hlt2) (pseq_intro hr3
    (pseq_intro (pany_intro mx hlt3) hr4)))))]
  rw [← hlen]
  rfl

/-- Reverse direction: a whole-buffer match of the `IpValue` matcher forces
the ip shape. -/
theorem pIpBody_shape {b : List Char} {mx mx2 : Tok} {evs : List Event}
    (h : pIpBody b 0 mx = (mx2, some (b.length, evs))) : IpShaped b := by
  unfold pIpBody at h
  obtain ⟨m1, q1, e1, e2, hd1, h, _⟩ := pseq_inv h
  obtain ⟨m2, q2, e3, e4, ha1, h, _⟩ := pseq_inv h
  obtain ⟨m3, q3, e5, e6, hd2, h, _⟩ := pseq_inv h
  obtain ⟨m4, q4, e7, e8, ha2, h, _⟩ := pseq_inv h
  obtain ⟨m5, q5, e9, e10, hd3, h, _⟩ := pseq_inv h
  obtain ⟨m6, q6, e11, e12, ha3, hd4, _⟩ := pseq_inv h
  obtain ⟨_, _, hr1, hq1, hsplit1, hdw1⟩ := pDigits_inv_step hd1
  obtain ⟨c1, hget1, hc1, hcons1, hq2, _, _⟩ := sep_step ha1 ⟨_, hdw1⟩
  obtain ⟨_, _, hr2, hq3, hsplit2, hdw2⟩ := pDigits_inv_step hd2
  obtain ⟨c2, hget2, hc2, hcons2, hq4, _, _⟩ := sep_step ha2 ⟨_, hdw2⟩
  obtain ⟨_, _, hr3, hq5, hsplit3, hdw3⟩ := pDigits_inv_step hd3
  obtain ⟨c3, hget3, hc3, hcons3, hq6, _, _⟩ := sep_step ha3 ⟨_, hdw3⟩
  obtain ⟨_, _, hr4, hqF, hsplit4, hdw4⟩ := pDigits_inv_step hd4
  have hdropF : b.drop b.length = [] := List.drop_length b
  rw [hdropF, List.append_nil] at hsplit4
  rw [hq6] at hr4 hsplit4
  rw [hq2] at hr2 hsplit2
  rw [hq4] at hr3 hsplit3
  rw [List.drop_zero] at hr1 hsplit1
  have h3' : b.drop (q3 + 1) = (b.drop (q3 + 1)).takeWhile digitChar ++
      (c3 :: (b.drop (q5 + 1)).takeWhile digitChar) := by
    conv_lhs => rw [hsplit3]
    conv_lhs => rw [hcons3]
    conv_lhs => rw [hsplit4]
  have h2' : b.drop (q1 + 1) = (b.drop (q1 + 1)).takeWhile digitChar ++
      (c2 :: ((b.drop (q3 + 1)).takeWhile digitChar ++
        (c3 :: (b.drop (q5 + 1)).takeWhile digitChar))) := by
    conv_lhs => rw [hsplit2]
    conv_lhs => rw [hcons2]
    conv_lhs => rw [h3']
  have h1' : b = b.takeWhile digitChar ++
      (c1 :: ((b.drop (q1 + 1)).takeWhile digitChar ++
        (c2 :: ((b.drop (q3 + 1)).takeWhile digitChar ++
          (c3 :: (b.drop (q5 + 1)).takeWhile digitChar))))) := by
    conv_lhs => rw [hsplit1]
    conv_lhs => rw [hcons1]
    conv_lhs => rw [h2']
  exact ⟨b.takeWhile digitChar, c1, (b.drop (q1 + 1)).takeWhile digitChar, c2,
    (b.drop (q3 + 1)).takeWhile digitChar, c3, (b.drop (q5 + 1)).takeWhile digitChar,
    h1', hr1, hr2, hr3, hr4, hc1, hc2, hc3⟩

/-- On an ip-shaped buffer the `CidrValue` matcher fails: the greedy runs put
the position at the end of the buffer where the literal `'/'` is missing. -/
theorem pCidrBody_fail_of_ip {b : List Char} (mx : Tok) (h : IpShaped b) :
    pCidrBody b 0 mx = (mx, none) := by
  obtain ⟨d1, c1, d2, c2, d3, c3, d4, hb, h1, h2, h3, h4, hc1, hc2, hc3⟩ := h
  have hd0 : b.drop 0 = d1 ++ (c1 :: (d2 ++ (c2 :: (d3 ++ (c3 :: d4))))) := by
    rw [List.drop_zero, hb]
  obtain ⟨hr1, hdrop1⟩ := pDigits_run mx hd0 h1.1 h1.2 (Or.inr ⟨c1, _, rfl, hc1⟩)
  set p1 := 0 + d1.length with hp1
  have hget1 : b.get? p1 = some c1 := (get_of_drop_cons b p1 c1 _ hdrop1).1
  have hlt1 : p1 < b.length := (List.get?_eq_some.mp hget1).1
  have hdrop1' : b.drop (p1 + 1) = d2 ++ (c2 :: (d3 ++ (c3 :: d4))) :=
    (get_of_drop_cons b p1 c1 _ hdrop1).2
  obtain ⟨hr2, hdrop2⟩ := pDigits_run mx hdrop1' h2.1 h2.2 (Or.inr ⟨c2, _, rfl, hc2⟩)
  set p2 := p1 + 1 + d2.length with hp2
  have hget2 : b.get? p2 = some c2 := (get_of_drop_cons b p2 c2 _ hdrop2).1
  have hlt2 : p2 < b.length := (List.get?_eq_some.mp hget2).1
  have hdrop2' : b.drop (p2 + 1) = d3 ++ (c3 :: d4) :=
    (get_of_drop_cons b p2 c2 _ hdrop2).2
  obtain ⟨hr3, hdrop3⟩ := pDigits_run mx hdrop2' h3.1 h3.2 (Or.inr ⟨c3, _, rfl, hc3⟩)
  set p3 := p2 + 1 + d3.length with hp3
  have hget3 : b.get? p3 = some c3 := (get_of_drop_cons b p3 c3 _ hdrop3).1
  have hlt3 : p3 < b.length := (List.get?_eq_some.mp hget3).1
  have hdrop3' : b.drop (p3 + 1) = d4 ++ [] := by
    rw [(get_of_drop_cons b p3 c3 _ hdrop3).2, List.append_nil]
  obtain ⟨hr4, hdrop4⟩ := pDigits_run mx hdrop3' h4.1 h4.2 (Or.inl rfl)
  set p4 := p3 + 1 + d4.length with hp4
  have hgetEnd : b.get? p4 = none := by
    apply get_none_of_drop_nil
    exact hdrop4
  unfold pCidrBody
  apply pseq_fail_snd hr1
  apply pseq_fail_snd (pany_intro mx hlt1)
  apply pseq_fail_snd hr2
  apply pseq_fail_snd (pany_intro mx hlt2)
  apply pseq_fail_snd hr3
  apply pseq_fail_snd (pany_intro mx hlt3)
  apply pseq_fail_snd hr4
  exact pseq_fail_fst (pchar_fail_end mx hgetEnd)

/-- Value-level classification on a cidr-shaped token: the first alternative
wins and emits the `addParamCidrValue` call on the whole token. -/
theorem pValue_cidr_forward {b : List Char} (h : CidrShaped b) :
    (pValue b 0 tok0).2 = some (b.length, [Event.cidrValue b.asString]) := by
  unfold pValue
  rw [ptoken_intro (palt_intro_fst (pcapture_intro (ptoken_intro
    (pCidrBody_accepts tok0 h))))]
  rw [textOf_full]
  rfl

/-- Value-level classification on an ip-shaped token: the `CidrValue`
alternative fails, the `IpValue` alternative wins and emits the
`addParamIpValue` call on the whole token. -/
theorem pValue_ip_forward {b : List Char} (h : IpShaped b) :
    (pValue b 0 tok0).2 = some (b.length, [Event.ipValue b.asString]) := by
  unfold pValue
  rw [ptoken_intro (palt_intro_snd (pcapture_fail (ptoken_fail
    (pCidrBody_fail_of_ip tok0 h)))
    (palt_intro_fst (pcapture_intro (ptoken_intro (pIpBody_accepts tok0 h)))))]
  rw [textOf_full]
  rfl

/-! ### Event soundness: actions and entities come from the closed enumerations -/

theorem pgood_pseq {p q : PParser} (hp : PGood p) (hq : PGood q) : PGood (pseq p q) := by
  intro b pos mx mx' pos' evs h e he
  obtain ⟨mx1, pos1, ev1, ev2, h1, h2, hevs⟩ := pseq_inv h
  subst hevs
  rcases List.mem_append.mp he with h' | h'
  · exact hp _ _ _ _ _ _ h1 e h'
  · exact hq _ _ _ _ _ _ h2 e h'

theorem pgood_palt {p q : PParser} (hp : PGood p) (hq : PGood q) : PGood (palt p q) := by
  intro b pos mx mx' pos' evs h e he
  rcases palt_inv h with h1 | ⟨mx1, _, h2⟩
  · exact hp _ _ _ _ _ _ h1 e he
  · exact hq _ _ _ _ _ _ h2 e he

theorem pgood_ptoken {r : pegRule} {p : PParser} (hp : PGood p) : PGood (ptoken r p) := by
  intro b pos mx mx' pos' evs h e he
  obtain ⟨mx1, h1, _⟩ := ptoken_inv h
  exact hp _ _ _ _ _ _ h1 e he

theorem pgood_pcapture {p : PParser} {mk : String → Event} (hp : PGood p)
    (hmk : ∀ b pos mx mx' pos' ev, p b pos mx = (mx', some (pos', ev)) →
      GoodEv (mk (textOf b pos pos'))) : PGood (pcapture p mk) := by
  intro b pos mx mx' pos' evs h e he
  obtain ⟨mx1, ev1, h1, hevs, _⟩ := pcapture_inv h
  subst hevs
  rcases List.mem_append.mp he with h' | h'
  · exact hp _ _ _ _ _ _ h1 e h'
  · rw [List.mem_singleton.mp h']
    exact hmk _ _ _ _ _ _ h1

theorem pgood_pemit {e : Event} (he : GoodEv e) : PGood (pemit e) := by
  intro b pos mx mx' pos' evs h x hx
  unfold pemit at h
  simp only [Prod.mk.injEq, Option.some.injEq] at h
  obtain ⟨_, _, hevs⟩ := h
  rw [← hevs] at hx
  rw [List.mem_singleton.mp hx]
  exact he

theorem pgood_pnot {p : PParser} : PGood (pnot p) := by
  intro b pos mx mx' pos' evs h e he
  obtain ⟨_, hevs, _⟩ := pnot_inv h
  subst hevs
  cases he

theorem pgood_popt {p : PParser} (hp : PGood p) : PGood (popt p) := by
  intro b pos mx mx' pos' evs h e he
  rcases popt_inv h with h1 | ⟨_, hr⟩
  · exact hp _ _ _ _ _ _ h1 e he
  · cases hr
    cases he

theorem pgood_pchar {c : Char} : PGood (pchar c) := by
  intro b pos mx mx' pos' evs h e he
  obtain ⟨_, _, hevs, _⟩ := pchar_inv h
  subst hevs
  cases he

theorem pgood_pclass {f : Char → Bool} : PGood (pclass f) := by
  intro b pos mx mx' pos' evs h e he
  obtain ⟨_, _, hevs, _⟩ := pclass_inv h
  subst hevs
  cases he

theorem pgood_pany : PGood pany := by
  intro b pos mx mx' pos' evs h e he
  obtain ⟨_, _, hevs, _⟩ := pany_inv h
  subst hevs
  cases he

theorem pgood_pliteral {l : List Char} : PGood (pliteral l) := by
  intro b pos mx mx' pos' evs h e he
  obtain ⟨_, _, hevs, _⟩ := pliteral_inv h
  subst hevs
  cases he

theorem pgood_pstarAux {p : PParser} (hp : PGood p) (fuel : Nat) :
    PGood (fun b pos mx => pstarAux p b fuel pos mx) := by
  induction fuel with
  | zero =>
    intro b pos mx mx' pos' evs h e he
    unfold pstarAux at h
    simp only [Prod.mk.injEq, Option.some.injEq] at h
    obtain ⟨_, _, hevs⟩ := h
    rw [← hevs] at he
    cases he
  | succ n ih =>
    intro b pos mx mx' pos' evs h e he
    unfold pstarAux at h
    split at h
    · rename_i mx1 heq
      simp only [Prod.mk.injEq, Option.some.injEq] at h
      obtain ⟨_, _, hevs⟩ := h
      rw [← hevs] at he
      cases he
    · rename_i mx1 pos1 ev1 heq
      split at h
      · simp only [Prod.mk.injEq, Option.some.injEq] at h
        obtain ⟨hm, hh⟩ := h
        rw [← hh.2] at he
        exact hp _ _ _ _ _ _ heq e he
      · split at h
        · rename_i mx2 pos2 ev2 heq2
          simp only [Prod.mk.injEq, Option.some.injEq] at h
          obtain ⟨hm, hh⟩ := h
          rw [← hh.2] at he
          rcases List.mem_append.mp he with h' | h'
          · exact hp _ _ _ _ _ _ heq e h'
          · exact ih _ _ _ _ _ _ heq2 e h'
        · simp at h

theorem pgood_pstar {p : PParser} (hp : PGood p) : PGood (pstar p) := by
  intro b pos mx mx' pos' evs h e he
  unfold pstar at h
  exact pgood_pstarAux hp _ _ _ _ _ _ _ h e he

theorem pgood_pplus {p : PParser} (hp : PGood p) : PGood (pplus p) :=
  pgood_pseq hp (pgood_pstar hp)

theorem drop_nil_of_get_none {b : List Char} {pos : Nat} (h : b.get? pos = none) :
    b.drop pos = [] := by
  cases hd : b.drop pos with
  | nil => rfl
  | cons x xs => rw [(get_of_drop_cons b pos x xs hd).1] at h; cases h

theorem pliteral_text {l : List Char} {b : List Char} {pos : Nat} {mx mx' : Tok}
    {pos' : Nat} {evs : List Event} (h : pliteral l b pos mx = (mx', some (pos', evs))) :
    textOf b pos pos' = l.asString := by
  obtain ⟨_, hpos, _, htake⟩ := pliteral_inv h
  rw [hpos]
  exact textOf_of_take htake

/-- The generated `Action` rule only matches the nine enumerated literals, and
the captured text is always one of them. -/
theorem pActionBody_text {b : List Char} {pos : Nat} {mx mx' : Tok} {pos' : Nat}
    {evs : List Event} (h : pActionBody b pos mx = (mx', some (pos', evs))) :
    textOf b pos pos' ∈ actionLits := by
  unfold pActionBody at h
  rcases palt_inv h with h1 | ⟨m1, _, h⟩
  · rw [pliteral_text h1]; decide
  rcases palt_inv h with h1 | ⟨m2, _, h⟩
  · rw [pliteral_text h1]; decide
  rcases palt_inv h with h1 | ⟨m3, _, h⟩
  · rw [pliteral_text h1]; decide
  unfold pActionSwitch at h
  cases hget : b.get? pos with
  | none => rw [hget] at h; rw [pliteral_text h]; decide
  | some c =>
    rw [hget] at h
    dsimp only at h
    by_cases hc1 : c = 'd'
    · rw [if_pos hc1] at h; rw [pliteral_text h]; decide
    rw [if_neg hc1] at h
    by_cases hc2 : c = 'c'
    · rw [if_pos hc2] at h; rw [pliteral_text h]; decide
    rw [if_neg hc2] at h
    by_cases hc3 : c = 'a'
    · rw [if_pos hc3] at h; rw [pliteral_text h]; decide
    rw [if_neg hc3] at h
    by_cases hc4 : c = 'u'
    · rw [if_pos hc4] at h; rw [pliteral_text h]; decide
    rw [if_neg hc4] at h
    by_cases hc5 : c = 's'
    · rw [if_pos hc5] at h; rw [pliteral_text h]; decide
    rw [if_neg hc5] at h
    rw [pliteral_text h]; decide

/-- The generated `Entity` rule only matches the enumerated literals, and the
captured text is always one of them. -/
theorem pEntityBody_text {b : List Char} {pos : Nat} {mx mx' : Tok} {pos' : Nat}
    {evs : List Event} (h : pEntityBody b pos mx = (mx', some (pos', evs))) :
    textOf b pos pos' ∈ entityLits := by
  unfold pEntityBody at h
  rcases palt_inv h with h1 | ⟨m1, _, h⟩
  · rw [pliteral_text h1]; decide
  rcases palt_inv h with h1 | ⟨m2, _, h⟩
  · rw [pliteral_text h1]; decide
  rcases palt_inv h with h1 | ⟨m3, _, h⟩
  · rw [pliteral_text h1]; decide
  rcases palt_inv h with h1 | ⟨m4, _, h⟩
  · rw [pliteral_text h1]; decide
  rcases palt_inv h with h1 | ⟨m5, _, h⟩
  · rw [pliteral_text h1]; decide
  rcases palt_inv h with h1 | ⟨m6, _, h⟩
  · rw [pliteral_text h1]; decide
  rcases palt_inv h with h1 | ⟨m7, _, h⟩
  · rw [pliteral_text h1]; decide
  rcases palt_inv h with h1 | ⟨m8, _, h⟩
  · rw [pliteral_text h1]; decide
  rcases palt_inv h with h1 | ⟨m9, _, h⟩
  · rw [pliteral_text h1]; decide
  unfold pEntitySwitch at h
  cases hget : b.get? pos with
  | none => rw [hget] at h; rw [pliteral_text h]; decide
  | some c =>
    rw [hget] at h
    dsimp only at h
    by_cases hc1 : c = 'l'
    · rw [if_pos hc1] at h; rw [pliteral_text h]; decide
    rw [if_neg hc1] at h
    by_cases hc2 : c = 'q'
    · rw [if_pos hc2] at h; rw [pliteral_text h]; decide
    rw [if_neg hc2] at h
    by_cases hc3 : c = 't'
    · rw [if_pos hc3] at h; rw [pliteral_text h]; decide
    rw [if_neg hc3] at h
    by_cases hc4 : c = 's'
    · rw [if_pos hc4] at h; rw [pliteral_text h]; decide
    rw [if_neg hc4] at h
    by_cases hc5 : c = 'b'
    · rw [if_pos hc5] at h; rw [pliteral_text h]; decide
    rw [if_neg hc5] at h
    by_cases hc6 : c = 'r'
    · rw [if_pos hc6] at h; rw [pliteral_text h]; decide
    rw [if_neg hc6] at h
    by_cases hc7 : c = 'i'
    · rw [if_pos hc7] at h; rw [pliteral_text h]; decide
    rw [if_neg hc7] at h
    by_cases hc8 : c = 'k'
    · rw [if_pos hc8] at h; rw [pliteral_text h]; decide
    rw [if_neg hc8] at h
    by_cases hc9 : c = 'p'
    · rw [if_pos hc9] at h; rw [pliteral_text h]; decide
    rw [if_neg hc9] at h
    by_cases hc10 : c = 'g'
    · rw [if_pos hc10] at h; rw [pliteral_text h]; decide
    rw [if_neg hc10] at h
    by_cases hc11 : c = 'u'
    · rw [if_pos hc11] at h; rw [pliteral_text h]; decide
    rw [if_neg hc11] at h
    by_cases hc12 : c = 'v'
    · rw [if_pos hc12] at h; rw [pliteral_text h]; decide
    rw [if_neg hc12] at h
    rw [pliteral_text h]; decide

theorem goodEv_declId (s : String) : GoodEv (.declId s) := True.intro

theorem goodEv_paramKey (s : String) : GoodEv (.paramKey s) := True.intro

theorem goodEv_holeValue (s : String) : GoodEv (.holeValue s) := True.intro

theorem goodEv_paramValue (s : String) : GoodEv (.paramValue s) := True.intro

theorem goodEv_refValue (s : String) : GoodEv (.refValue s) := True.intro

theorem goodEv_cidrValue (s : String) : GoodEv (.cidrValue s) := True.intro

theorem goodEv_ipValue (s : String) : GoodEv (.ipValue s) := True.intro

theorem goodEv_csvValue (s : String) : GoodEv (.csvValue s) := True.intro

theorem goodEv_intValue (s : String) : GoodEv (.intValue s) := True.intro

theorem goodEv_lineDone : GoodEv .lineDone := True.intro

theorem pgood_pWhitespace : PGood pWhitespace := by
  unfold pWhitespace
  exact pgood_ptoken (pgood_palt pgood_pchar pgood_pchar)

theorem pgood_pEndOfLine : PGood pEndOfLine := by
  unfold pEndOfLine
  exact pgood_ptoken (pgood_palt pgood_pliteral (pgood_palt pgood_pchar pgood_pchar))

theorem pgood_pSpace : PGood pSpace := by
  unfold pSpace
  exact pgood_ptoken (pgood_palt pgood_pWhitespace pgood_pEndOfLine)

theorem pgood_pSpacing : PGood pSpacing := by
  unfold pSpacing
  exact pgood_ptoken (pgood_pstar pgood_pSpace)

theorem pgood_pWhiteSpacing : PGood pWhiteSpacing := by
  unfold pWhiteSpacing
  exact pgood_ptoken (pgood_pstar pgood_pWhitespace)

theorem pgood_pMustWhiteSpacing : PGood pMustWhiteSpacing := by
  unfold pMustWhiteSpacing
  exact pgood_ptoken (pgood_pplus pgood_pWhitespace)

theorem pgood_pEqual : PGood pEqual := by
  unfold pEqual
  exact pgood_ptoken (pgood_pseq pgood_pSpacing (pgood_pseq pgood_pchar pgood_pSpacing))

theorem pgood_pIdentifier : PGood pIdentifier := by
  unfold pIdentifier
  exact pgood_ptoken (pgood_pplus pgood_pclass)

theorem pgood_pStringValue : PGood pStringValue := by
  unfold pStringValue
  exact pgood_ptoken (pgood_pplus pgood_pclass)

theorem pgood_pDigits : PGood pDigits := by
  unfold pDigits
  exact pgood_pplus pgood_pclass

theorem pgood_pCidrBody : PGood pCidrBody := by
  unfold pCidrBody
  exact pgood_pseq pgood_pDigits (pgood_pseq pgood_pany (pgood_pseq pgood_pDigits
    (pgood_pseq pgood_pany (pgood_pseq pgood_pDigits (pgood_pseq pgood_pany
    (pgood_pseq pgood_pDigits (pgood_pseq pgood_pchar pgood_pDigits)))))))

theorem pgood_pIpBody : PGood pIpBody := by
  unfold pIpBody
  exact pgood_pseq pgood_pDigits (pgood_pseq pgood_pany (pgood_pseq pgood_pDigits
    (pgood_pseq pgood_pany (pgood_pseq pgood_pDigits (pgood_pseq pgood_pany
    pgood_pDigits)))))

theorem pgood_pIntRangeBody : PGood pIntRangeBody := by
  unfold pIntRangeBody
  exact pgood_pseq pgood_pDigits (pgood_pseq pgood_pchar pgood_pDigits)

theorem pgood_pCSVBody : PGood pCSVBody := by
  unfold pCSVBody
  exact pgood_pseq (pgood_pplus (pgood_pseq pgood_pStringValue
    (pgood_pseq pgood_pWhiteSpacing (pgood_pseq pgood_pchar pgood_pWhiteSpacing))))
    pgood_pStringValue

theorem pgood_pRefValue : PGood pRefValue := by
  unfold pRefValue
  exact pgood_ptoken (pgood_pseq pgood_pchar (pgood_pcapture pgood_pIdentifier
    (fun _ _ _ _ _ _ _ => goodEv_refValue _)))

theorem pgood_pAliasValue : PGood pAliasValue := by
  unfold pAliasValue
  exact pgood_ptoken (pgood_pcapture (pgood_pseq pgood_pchar pgood_pStringValue)
    (fun _ _ _ _ _ _ _ => goodEv_paramValue _))

theorem pgood_pHoleValue : PGood pHoleValue := by
  unfold pHoleValue
  exact pgood_ptoken (pgood_pseq pgood_pchar (pgood_pseq pgood_pWhiteSpacing
    (pgood_pseq (pgood_pcapture pgood_pIdentifier
      (fun _ _ _ _ _ _ _ => goodEv_holeValue _))
    (pgood_pseq pgood_pWhiteSpacing pgood_pchar))))

theorem pgood_pValueSwitch : PGood pValueSwitch := by
  intro b pos mx mx' pos' evs h e he
  unfold pValueSwitch at h
  cases hget : b.get? pos with
  | none =>
    rw [hget] at h
    exact pgood_pcapture pgood_pStringValue
      (fun _ _ _ _ _ _ _ => goodEv_paramValue _) _ _ _ _ _ _ h e he
  | some c =>
    rw [hget] at h
    dsimp only at h
    by_cases h1 : c = '$'
    · rw [if_pos h1] at h
      exact pgood_pRefValue _ _ _ _ _ _ h e he
    rw [if_neg h1] at h
    by_cases h2 : c = '@'
    · rw [if_pos h2] at h
      exact pgood_pAliasValue _ _ _ _ _ _ h e he
    rw [if_neg h2] at h
    by_cases h3 : c = '{'
    · rw [if_pos h3] at h
      exact pgood_pHoleValue _ _ _ _ _ _ h e he
    rw [if_neg h3] at h
    exact pgood_pcapture pgood_pStringValue
      (fun _ _ _ _ _ _ _ => goodEv_paramValue _) _ _ _ _ _ _ h e he

theorem pgood_pValue : PGood pValue := by
  unfold pValue
  exact pgood_ptoken (pgood_palt
    (pgood_pcapture (pgood_ptoken pgood_pCidrBody)
      (fun _ _ _ _ _ _ _ => goodEv_cidrValue _))
    (pgood_palt (pgood_pcapture (pgood_ptoken pgood_pIpBody)
      (fun _ _ _ _ _ _ _ => goodEv_ipValue _))
    (pgood_palt (pgood_pcapture (pgood_ptoken pgood_pCSVBody)
      (fun _ _ _ _ _ _ _ => goodEv_csvValue _))
    (pgood_palt (pgood_pcapture (pgood_ptoken pgood_pIntRangeBody)
      (fun _ _ _ _ _ _ _ => goodEv_paramValue _))
    (pgood_palt (pgood_pcapture (pgood_ptoken pgood_pDigits)
      (fun _ _ _ _ _ _ _ => goodEv_intValue _))
    pgood_pValueSwitch)))))

theorem pgood_pParam : PGood pParam := by
  unfold pParam
  exact pgood_ptoken (pgood_pseq
    (pgood_pcapture pgood_pIdentifier (fun _ _ _ _ _ _ _ => goodEv_paramKey _))
    (pgood_pseq pgood_pEqual (pgood_pseq pgood_pValue pgood_pWhiteSpacing)))

theorem pgood_pParams : PGood pParams := by
  unfold pParams
  exact pgood_ptoken (pgood_pplus pgood_pParam)

theorem pgood_pActionSwitch : PGood pActionSwitch := by
  intro b pos mx mx' pos' evs h e he
  unfold pActionSwitch at h
  cases hget : b.get? pos with
  | none =>
    rw [hget] at h
    exact pgood_pliteral _ _ _ _ _ _ h e he
  | some c =>
    rw [hget] at h
    dsimp only at h
    by_cases h1 : c = 'd'
    · rw [if_pos h1] at h
      exact pgood_pliteral _ _ _ _ _ _ h e he
    rw [if_neg h1] at h
    by_cases h2 : c = 'c'
    · rw [if_pos h2] at h
      exact pgood_pliteral _ _ _ _ _ _ h e he
    rw [if_neg h2] at h
    by_cases h3 : c = 'a'
    · rw [if_pos h3] at h
      exact pgood_pliteral _ _ _ _ _ _ h e he
    rw [if_neg h3] at h
    by_cases h4 : c = 'u'
    · rw [if_pos h4] at h
      exact pgood_pliteral _ _ _ _ _ _ h e he
    rw [if_neg h4] at h
    by_cases h5 : c = 's'
    · rw [if_pos h5] at h
      exact pgood_pliteral _ _ _ _ _ _ h e he
    rw [if_neg h5] at h
    exact pgood_pliteral _ _ _ _ _ _ h e he

theorem pgood_pActionBody : PGood pActionBody := by
  unfold pActionBody
  exact pgood_palt pgood_pliteral (pgood_palt pgood_pliteral
    (pgood_palt pgood_pliteral pgood_pActionSwitch))

theorem pgood_pEntitySwitch : PGood pEntitySwitch := by
  intro b pos mx mx' pos' evs h e he
  unfold pEntitySwitch at h
  cases hget : b.get? pos with
  | none =>
    rw [hget] at h
    exact pgood_pliteral _ _ _ _ _ _ h e he
  | some c =>
    rw [hget] at h
    dsimp only at h
    by_cases h1 : c = 'l'
    · rw [if_pos h1] at h
      exact pgood_pliteral _ _ _ _ _ _ h e he
    rw [if_neg h1] at h
    by_cases h2 : c = 'q'
    · rw [if_pos h2] at h
      exact pgood_pliteral _ _ _ _ _ _ h e he
    rw [if_neg h2] at h
    by_cases h3 : c = 't'
    · rw [if_pos h3] at h
      exact pgood_pliteral _ _ _ _ _ _ h e he
    rw [if_neg h3] at h
    by_cases h4 : c = 's'
    · rw [if_pos h4] at h
      exact pgood_pliteral _ _ _ _ _ _ h e he
    rw [if_neg h4] at h
    by_cases h5 : c = 'b'
    · rw [if_pos h5] at h
      exact pgood_pliteral _ _ _ _ _ _ h e he
    rw [if_neg h5] at h
    by_cases h6 : c = 'r'
    · rw [if_pos h6] at h
      exact pgood_pliteral _ _ _ _ _ _ h e he
    rw [if_neg h6] at h
    by_cases h7 : c = 'i'
    · rw [if_pos h7] at h
      exact pgood_pliteral _ _ _ _ _ _ h e he
    rw [if_neg h7] at h
    by_cases h8 : c = 'k'
    · rw [if_pos h8] at h
      exact pgood_pliteral _ _ _ _ _ _ h e he
    rw [if_neg h8] at h
    by_cases h9 : c = 'p'
    · rw [if_pos h9] at h
      exact pgood_pliteral _ _ _ _ _ _ h e he
    rw [if_neg h9] at h
    by_cases h10 : c = 'g'
    · rw [if_pos h10] at h
      exact pgood_pliteral _ _ _ _ _ _ h e he
    rw [if_neg h10] at h
    by_cases h11 : c = 'u'
    · rw [if_pos h11] at h
      exact pgood_pliteral _ _ _ _ _ _ h e he
    rw [if_neg h11] at h
    by_cases h12 : c = 'v'
    · rw [if_pos h12] at h
      exact pgood_pliteral _ _ _ _ _ _ h e he
    rw [if_neg h12] at h
    exact pgood_pliteral _ _ _ _ _ _ h e he

theorem pgood_pEntityBody : PGood pEntityBody := by
  unfold pEntityBody
  exact pgood_palt pgood_pliteral (pgood_palt pgood_pliteral (pgood_palt pgood_pliteral
    (pgood_palt pgood_pliteral (pgood_palt pgood_pliteral (pgood_palt pgood_pliteral
    (pgood_palt pgood_pliteral (pgood_palt pgood_pliteral (pgood_palt pgood_pliteral
    pgood_pEntitySwitch))))))))

theorem pgood_pExpr : PGood pExpr := by
  unfold pExpr
  refine pgood_ptoken (pgood_pseq (pgood_pcapture (pgood_ptoken pgood_pActionBody) ?_)
    (pgood_pseq pgood_pMustWhiteSpacing
    (pgood_pseq (pgood_pcapture (pgood_ptoken pgood_pEntityBody) ?_)
    (pgood_pseq (pgood_popt (pgood_pseq pgood_pMustWhiteSpacing pgood_pParams))
      (pgood_pemit goodEv_lineDone)))))
  · intro b pos mx mx' pos' ev h
    obtain ⟨mx1, h1, _⟩ := ptoken_inv h
    exact pActionBody_text h1
  · intro b pos mx mx' pos' ev h
    obtain ⟨mx1, h1, _⟩ := ptoken_inv h
    exact pEntityBody_text h1

theorem pgood_pDeclaration : PGood pDeclaration := by
  unfold pDeclaration
  exact pgood_ptoken (pgood_pseq
    (pgood_pcapture pgood_pIdentifier (fun _ _ _ _ _ _ _ => goodEv_declId _))
    (pgood_pseq pgood_pEqual pgood_pExpr))

theorem pgood_pComment : PGood pComment := by
  unfold pComment pCommentBody
  exact pgood_ptoken (pgood_palt
    (pgood_pseq pgood_pchar (pgood_pstar (pgood_pseq pgood_pnot pgood_pany)))
    (pgood_pseq pgood_pliteral (pgood_pseq
      (pgood_pstar (pgood_pseq pgood_pnot pgood_pany)) (pgood_pemit goodEv_lineDone))))

theorem pgood_pStatement : PGood pStatement := by
  unfold pStatement
  exact pgood_ptoken (pgood_pseq pgood_pSpacing (pgood_pseq
    (pgood_palt pgood_pExpr (pgood_palt pgood_pDeclaration pgood_pComment))
    (pgood_pseq pgood_pSpacing (pgood_pstar pgood_pEndOfLine))))

theorem pgood_pScript : PGood pScript := by
  unfold pScript
  exact pgood_ptoken (pgood_pseq pgood_pSpacing
    (pgood_pseq (pgood_pplus pgood_pStatement) (pgood_ptoken pgood_pnot)))

/-! ### Position boundedness: the parser never overruns the buffer -/

theorem pbound_pseq {p q : PParser} (hp : PBound p) (hq : PBound q) : PBound (pseq p q) := by
  intro b pos mx mx' pos' evs hle h
  obtain ⟨mx1, pos1, ev1, ev2, h1, h2, _⟩ := pseq_inv h
  exact hq _ _ _ _ _ _ (hp _ _ _ _ _ _ hle h1) h2

theorem pbound_palt {p q : PParser} (hp : PBound p) (hq : PBound q) : PBound (palt p q) := by
  intro b pos mx mx' pos' evs hle h
  rcases palt_inv h with h1 | ⟨mx1, _, h2⟩
  · exact hp _ _ _ _ _ _ hle h1
  · exact hq _ _ _ _ _ _ hle h2

theorem pbound_ptoken {r : pegRule} {p : PParser} (hp : PBound p) : PBound (ptoken r p) := by
  intro b pos mx mx' pos' evs hle h
  obtain ⟨mx1, h1, _⟩ := ptoken_inv h
  exact hp _ _ _ _ _ _ hle h1

theorem pbound_pcapture {p : PParser} {mk : String → Event} (hp : PBound p) :
    PBound (pcapture p mk) := by
  intro b pos mx mx' pos' evs hle h
  obtain ⟨mx1, ev1, h1, _, _⟩ := pcapture_inv h
  exact hp _ _ _ _ _ _ hle h1

theorem pbound_pemit {e : Event} : PBound (pemit e) := by
  intro b pos mx mx' pos' evs hle h
  unfold pemit at h
  simp only [Prod.mk.injEq, Option.some.injEq] at h
  omega

theorem pbound_pnot {p : PParser} : PBound (pnot p) := by
  intro b pos mx mx' pos' evs hle h
  obtain ⟨hpos, _, _⟩ := pnot_inv h
  omega

theorem pbound_popt {p : PParser} (hp : PBound p) : PBound (popt p) := by
  intro b pos mx mx' pos' evs hle h
  rcases popt_inv h with h1 | ⟨_, hr⟩
  · exact hp _ _ _ _ _ _ hle h1
  · cases hr
    omega

theorem pbound_pchar {c : Char} : PBound (pchar c) := by
  intro b pos mx mx' pos' evs hle h
  obtain ⟨_, hpos, _, hget⟩ := pchar_inv h
  have := (List.get?_eq_some.mp hget).1
  omega

theorem pbound_pclass {f : Char → Bool} : PBound (pclass f) := by
  intro b pos mx mx' pos' evs hle h
  obtain ⟨_, hpos, _, c, hget, _⟩ := pclass_inv h
  have := (List.get?_eq_some.mp hget).1
  omega

theorem pbound_pany : PBound pany := by
  intro b pos mx mx' pos' evs hle h
  obtain ⟨_, hpos, _, hlt⟩ := pany_inv h
  omega

theorem pbound_pliteral {l : List Char} : PBound (pliteral l) := by
  intro b pos mx mx' pos' evs hle h
  obtain ⟨_, hpos, _, htake⟩ := pliteral_inv h
  have hlen : l.length ≤ (b.drop pos).length := by
    have hc := congrArg List.length htake
    rw [List.length_take] at hc
    omega
  rw [List.length_drop] at hlen
  omega

theorem pbound_pstarAux {p : PParser} (hp : PBound p) (fuel : Nat) :
    PBound (fun b pos mx => pstarAux p b fuel pos mx) := by
  induction fuel with
  | zero =>
    intro b pos mx mx' pos' evs hle h
    unfold pstarAux at h
    simp only [Prod.mk.injEq, Option.some.injEq] at h
    omega
  | succ n ih =>
    intro b pos mx mx' pos' evs hle h
    unfold pstarAux at h
    split at h
    · simp only [Prod.mk.injEq, Option.some.injEq] at h
      omega
    · rename_i mx1 pos1 ev1 heq
      split at h
      · simp only [Prod.mk.injEq, Option.some.injEq] at h
        have := hp _ _ _ _ _ _ hle heq
        omega
      · split at h
        · rename_i mx2 pos2 ev2 heq2
          simp only [Prod.mk.injEq, Option.some.injEq] at h
          have h1 := hp _ _ _ _ _ _ hle heq
          have h2 := ih _ _ _ _ _ _ h1 heq2
          omega
        · simp at h

theorem pbound_pstar {p : PParser} (hp : PBound p) : PBound (pstar p) := by
  intro b pos mx mx' pos' evs hle h
  unfold pstar at h
  exact pbound_pstarAux hp _ _ _ _ _ _ _ hle h

theorem pbound_pplus {p : PParser} (hp : PBound p) : PBound (pplus p) :=
  pbound_pseq hp (pbound_pstar hp)

theorem pbound_pWhitespace : PBound pWhitespace := by
  unfold pWhitespace
  exact pbound_ptoken (pbound_palt pbound_pchar pbound_pchar)

theorem pbound_pEndOfLine : PBound pEndOfLine := by
  unfold pEndOfLine
  exact pbound_ptoken (pbound_palt pbound_pliteral (pbound_palt pbound_pchar pbound_pchar))

theorem pbound_pSpace : PBound pSpace := by
  unfold pSpace
  exact pbound_ptoken (pbound_palt pbound_pWhitespace pbound_pEndOfLine)

theorem pbound_pSpacing : PBound pSpacing := by
  unfold pSpacing
  exact pbound_ptoken (pbound_pstar pbound_pSpace)

theorem pbound_pWhiteSpacing : PBound pWhiteSpacing := by
  unfold pWhiteSpacing
  exact pbound_ptoken (pbound_pstar pbound_pWhitespace)

theorem pbound_pMustWhiteSpacing : PBound pMustWhiteSpacing := by
  unfold pMustWhiteSpacing
  exact pbound_ptoken (pbound_pplus pbound_pWhitespace)

theorem pbound_pEqual : PBound pEqual := by
  unfold pEqual
  exact pbound_ptoken (pbound_pseq pbound_pSpacing (pbound_pseq pbound_pchar pbound_pSpacing))

theorem pbound_pIdentifier : PBound pIdentifier := by
  unfold pIdentifier
  exact pbound_ptoken (pbound_pplus pbound_pclass)

theorem pbound_pStringValue : PBound pStringValue := by
  unfold pStringValue
  exact pbound_ptoken (pbound_pplus pbound_pclass)

theorem pbound_pDigits : PBound pDigits := by
  unfold pDigits
  exact pbound_pplus pbound_pclass

theorem pbound_pCidrBody : PBound pCidrBody := by
  unfold pCidrBody
  exact pbound_pseq pbound_pDigits (pbound_pseq pbound_pany (pbound_pseq pbound_pDigits
    (pbound_pseq pbound_pany (pbound_pseq pbound_pDigits (pbound_pseq pbound_pany
    (pbound_pseq pbound_pDigits (pbound_pseq pbound_pchar pbound_pDigits)))))))

theorem pbound_pIpBody : PBound pIpBody := by
  unfold pIpBody
  exact pbound_pseq pbound_pDigits (pbound_pseq pbound_pany (pbound_pseq pbound_pDigits
    (pbound_pseq pbound_pany (pbound_pseq pbound_pDigits (pbound_pseq pbound_pany
    pbound_pDigits)))))

theorem pbound_pIntRangeBody : PBound pIntRangeBody := by
  unfold pIntRangeBody
  exact pbound_pseq pbound_pDigits (pbound_pseq pbound_pchar pbound_pDigits)

theorem pbound_pCSVBody : PBound pCSVBody := by
  unfold pCSVBody
  exact pbound_pseq (pbound_pplus (pbound_pseq pbound_pStringValue
    (pbound_pseq pbound_pWhiteSpacing (pbound_pseq pbound_pchar pbound_pWhiteSpacing))))
    pbound_pStringValue

theorem pbound_pRefValue : PBound pRefValue := by
  unfold pRefValue
  exact pbound_ptoken (pbound_pseq pbound_pchar (pbound_pcapture pbound_pIdentifier))

theorem pbound_pAliasValue : PBound pAliasValue := by
  unfold pAliasValue
  exact pbound_ptoken (pbound_pcapture (pbound_pseq pbound_pchar pbound_pStringValue))

theorem pbound_pHoleValue : PBound pHoleValue := by
  unfold pHoleValue
  exact pbound_ptoken (pbound_pseq pbound_pchar (pbound_pseq pbound_pWhiteSpacing
    (pbound_pseq (pbound_pcapture pbound_pIdentifier)
    (pbound_pseq pbound_pWhiteSpacing pbound_pchar))))

theorem pbound_pValueSwitch : PBound pValueSwitch := by
  intro b pos mx mx' pos' evs hle h
  unfold pValueSwitch at h
  cases hget : b.get? pos with
  | none =>
    rw [hget] at h
    exact pbound_pcapture pbound_pStringValue _ _ _ _ _ _ hle h
  | some c =>
    rw [hget] at h
    dsimp only at h
    by_cases h1 : c = '$'
    · rw [if_pos h1] at h
      exact pbound_pRefValue _ _ _ _ _ _ hle h
    rw [if_neg h1] at h
    by_cases h2 : c = '@'
    · rw [if_pos h2] at h
      exact pbound_pAliasValue _ _ _ _ _ _ hle h
    rw [if_neg h2] at h
    by_cases h3 : c = '{'
    · rw [if_pos h3] at h
      exact pbound_pHoleValue _ _ _ _ _ _ hle h
    rw [if_neg h3] at h
    exact pbound_pcapture pbound_pStringValue _ _ _ _ _ _ hle h

theorem pbound_pValue : PBound pValue := by
  unfold pValue
  exact pbound_ptoken (pbound_palt (pbound_pcapture (pbound_ptoken pbound_pCidrBody))
    (pbound_palt (pbound_pcapture (pbound_ptoken pbound_pIpBody))
    (pbound_palt (pbound_pcapture (pbound_ptoken pbound_pCSVBody))
    (pbound_palt (pbound_pcapture (pbound_ptoken pbound_pIntRangeBody))
    (pbound_palt (pbound_pcapture (pbound_ptoken pbound_pDigits))
    pbound_pValueSwitch)))))

theorem pbound_pParam : PBound pParam := by
  unfold pParam
  exact pbound_ptoken (pbound_pseq (pbound_pcapture pbound_pIdentifier)
    (pbound_pseq pbound_pEqual (pbound_pseq pbound_pValue pbound_pWhiteSpacing)))

theorem pbound_pParams : PBound pParams := by
  unfold pParams
  exact pbound_ptoken (pbound_pplus pbound_pParam)

theorem pbound_pActionSwitch : PBound pActionSwitch := by
  intro b pos mx mx' pos' evs hle h
  unfold pActionSwitch at h
  cases hget : b.get? pos with
  | none =>
    rw [hget] at h
    exact pbound_pliteral _ _ _ _ _ _ hle h
  | some c =>
    rw [hget] at h
    dsimp only at h
    by_cases h1 : c = 'd'
    · rw [if_pos h1] at h
      exact pbound_pliteral _ _ _ _ _ _ hle h
    rw [if_neg h1] at h
    by_cases h2 : c = 'c'
    · rw [if_pos h2] at h
      exact pbound_pliteral _ _ _ _ _ _ hle h
    rw [if_neg h2] at h
    by_cases h3 : c = 'a'
    · rw [if_pos h3] at h
      exact pbound_pliteral _ _ _ _ _ _ hle h
    rw [if_neg h3] at h
    by_cases h4 : c = 'u'
    · rw [if_pos h4] at h
      exact pbound_pliteral _ _ _ _ _ _ hle h
    rw [if_neg h4] at h
    by_cases h5 : c = 's'
    · rw [if_pos h5] at h
      exact pbound_pliteral _ _ _ _ _ _ hle h
    rw [if_neg h5] at h
    exact pbound_pliteral _ _ _ _ _ _ hle h

theorem pbound_pActionBody : PBound pActionBody := by
  unfold pActionBody
  exact pbound_palt pbound_pliteral (pbound_palt pbound_pliteral
    (pbound_palt pbound_pliteral pbound_pActionSwitch))

theorem pbound_pEntitySwitch : PBound pEntitySwitch := by
  intro b pos mx mx' pos' evs hle h
  unfold pEntitySwitch at h
  cases hget : b.get? pos with
  | none =>
    rw [hget] at h
    exact pbound_pliteral _ _ _ _ _ _ hle h
  | some c =>
    rw [hget] at h
    dsimp only at h
    by_cases h1 : c = 'l'
    · rw [if_pos h1] at h
      exact pbound_pliteral _ _ _ _ _ _ hle h
    rw [if_neg h1] at h
    by_cases h2 : c = 'q'
    · rw [if_pos h2] at h
      exact pbound_pliteral _ _ _ _ _ _ hle h
    rw [if_neg h2] at h
    by_cases h3 : c = 't'
    · rw [if_pos h3] at h
      exact pbound_pliteral _ _ _ _ _ _ hle h
    rw [if_neg h3] at h
    by_cases h4 : c = 's'
    · rw [if_pos h4] at h
      exact pbound_pliteral _ _ _ _ _ _ hle h
    rw [if_neg h4] at h
    by_cases h5 : c = 'b'
    · rw [if_pos h5] at h
      exact pbound_pliteral _ _ _ _ _ _ hle h
    rw [if_neg h5] at h
    by_cases h6 : c = 'r'
    · rw [if_pos h6] at h
      exact pbound_pliteral _ _ _ _ _ _ hle h
    rw [if_neg h6] at h
    by_cases h7 : c = 'i'
    · rw [if_pos h7] at h
      exact pbound_pliteral _ _ _ _ _ _ hle h
    rw [if_neg h7] at h
    by_cases h8 : c = 'k'
    · rw [if_pos h8] at h
      exact pbound_pliteral _ _ _ _ _ _ hle h
    rw [if_neg h8] at h
    by_cases h9 : c = 'p'
    · rw [if_pos h9] at h
      exact pbound_pliteral _ _ _ _ _ _ hle h
    rw [if_neg h9] at h
    by_cases h10 : c = 'g'
    · rw [if_pos h10] at h
      exact pbound_pliteral _ _ _ _ _ _ hle h
    rw [if_neg h10] at h
    by_cases h11 : c = 'u'
    · rw [if_pos h11] at h
      exact pbound_pliteral _ _ _ _ _ _ hle h
    rw [if_neg h11] at h
    by_cases h12 : c = 'v'
    · rw [if_pos h12] at h
      exact pbound_pliteral _ _ _ _ _ _ hle h
    rw [if_neg h12] at h
    exact pbound_pliteral _ _ _ _ _ _ hle h

theorem pbound_pEntityBody : PBound pEntityBody := by
  unfold pEntityBody
  exact pbound_palt pbound_pliteral (pbound_palt pbound_pliteral (pbound_palt
    pbound_pliteral (pbound_palt pbound_pliteral (pbound_palt pbound_pliteral
    (pbound_palt pbound_pliteral (pbound_palt pbound_pliteral (pbound_palt
    pbound_pliteral (pbound_palt pbound_pliteral pbound_pEntitySwitch))))))))

theorem pbound_pExpr : PBound pExpr := by
  unfold pExpr
  exact pbound_ptoken (pbound_pseq (pbound_pcapture (pbound_ptoken pbound_pActionBody))
    (pbound_pseq pbound_pMustWhiteSpacing
    (pbound_pseq (pbound_pcapture (pbound_ptoken pbound_pEntityBody))
    (pbound_pseq (pbound_popt (pbound_pseq pbound_pMustWhiteSpacing pbound_pParams))
    pbound_pemit))))

theorem pbound_pDeclaration : PBound pDeclaration := by
  unfold pDeclaration
  exact pbound_ptoken (pbound_pseq (pbound_pcapture pbound_pIdentifier)
    (pbound_pseq pbound_pEqual pbound_pExpr))

theorem pbound_pComment : PBound pComment := by
  unfold pComment pCommentBody
  exact pbound_ptoken (pbound_palt
    (pbound_pseq pbound_pchar (pbound_pstar (pbound_pseq pbound_pnot pbound_pany)))
    (pbound_pseq pbound_pliteral (pbound_pseq
      (pbound_pstar (pbound_pseq pbound_pnot pbound_pany)) pbound_pemit)))

theorem pbound_pStatement : PBound pStatement := by
  unfold pStatement
  exact pbound_ptoken (pbound_pseq pbound_pSpacing (pbound_pseq
    (pbound_palt pbound_pExpr (pbound_palt pbound_pDeclaration pbound_pComment))
    (pbound_pseq pbound_pSpacing (pbound_pstar pbound_pEndOfLine))))

/-! ### Claim theorems -/

/-- C1: Value parsing precedence.  The generated `Value` rule tries
CidrValue, IpValue, CSVValue, IntRangeValue, IntValue and then the
sigil-selected Reference/Alias/Hole/String switch, in that order, and the
first alternative that matches wins: `10.0.0.0/24` is classified CIDR,
`10.0.0.0` IP (never CIDR or String), `a,b,c` CSV with items a, b, c,
`{name}` Hole(name), `$name` Reference(name), `@name` Alias(name), `42-100`
IntRange(42,100), and `42` Int(42), both as raw builder calls and as the
built template's typed values. -/
theorem C1_value_precedence :
    parseTemplate "create vpc p=10.0.0.0/24" = .ok [.action "create", .entity "vpc",
      .paramKey "p", .cidrValue "10.0.0.0/24", .lineDone] ∧
    parseTemplate "create vpc p=10.0.0.0" = .ok [.action "create", .entity "vpc",
      .paramKey "p", .ipValue "10.0.0.0", .lineDone] ∧
    parseTemplate "create vpc p=a,b,c" = .ok [.action "create", .entity "vpc",
      .paramKey "p", .csvValue "a,b,c", .lineDone] ∧
    parseTemplate "create vpc p={name}" = .ok [.action "create", .entity "vpc",
      .paramKey "p", .holeValue "name", .lineDone] ∧
    parseTemplate "create vpc p=$name" = .ok [.action "create", .entity "vpc",
      .paramKey "p", .refValue "name", .lineDone] ∧
    parseTemplate "create vpc p=@name" = .ok [.action "create", .entity "vpc",
      .paramKey "p", .paramValue "@name", .lineDone] ∧
    parseTemplate "create vpc p=42-100" = .ok [.action "create", .entity "vpc",
      .paramKey "p", .paramValue "42-100", .lineDone] ∧
    parseTemplate "create vpc p=42" = .ok [.action "create", .entity "vpc",
      .paramKey "p", .intValue "42", .lineDone] ∧
    parseToTemplate "create vpc p=10.0.0.0/24" =
      .ok [.expr ⟨"create", "vpc", [("p", Value.cidr "10.0.0.0/24")]⟩] ∧
    parseToTemplate "create vpc p=10.0.0.0" =
      .ok [.expr ⟨"create", "vpc", [("p", Value.ip "10.0.0.0")]⟩] ∧
    parseToTemplate "create vpc p=a,b,c" =
      .ok [.expr ⟨"create", "vpc", [("p", Value.csv ["a", "b", "c"])]⟩] ∧
    parseToTemplate "create vpc p={name}" =
      .ok [.expr ⟨"create", "vpc", [("p", Value.hole "name")]⟩] ∧
    parseToTemplate "create vpc p=$name" =
      .ok [.expr ⟨"create", "vpc", [("p", Value.ref "name")]⟩] ∧
    parseToTemplate "create vpc p=@name" =
      .ok [.expr ⟨"create", "vpc", [("p", Value.alias "name")]⟩] ∧
    parseToTemplate "create vpc p=42-100" =
      .ok [.expr ⟨"create", "vpc", [("p", Value.intRange 42 100)]⟩] ∧
    parseToTemplate "create vpc p=42" =
      .ok [.expr ⟨"create", "vpc", [("p", Value.int 42)]⟩] :=
  ⟨rfl, rfl, rfl, rfl, rfl, rfl, rfl, rfl, rfl, rfl, rfl, rfl, rfl, rfl, rfl, rfl⟩

/-- C2 counterexample: a `#` comment parses but performs no `LineDone` builder
call, while the claim states that both comment forms trigger it; the `//` form
does. -/
theorem C2_counterexample :
    parseTemplate "#c" = Except.ok [] ∧
    ¬ (∃ evs, parseTemplate "#c" = Except.ok evs ∧ Event.lineDone ∈ evs) ∧
    parseTemplate "//c" = Except.ok [Event.lineDone] := by
  refine ⟨rfl, ?_, rfl⟩
  rintro ⟨evs, hok, hmem⟩
  have h0 : parseTemplate "#c" = Except.ok ([] : List Event) := rfl
  rw [h0] at hok
  injection hok with hevs
  rw [← hevs] at hmem
  cases hmem

/-- C2 amended: comments run to end of line, but only the `//` form triggers
the `LineDone` builder call; the `#` form emits no builder call at all.  For
every terminator-free body, `#body` parses to an empty call list and `//body`
to exactly one `LineDone`. -/
theorem C2_comment_linedone (body : List Char) (hno : NoEol body) :
    parseTemplate (String.mk ('#' :: body)) = .ok [] ∧
    parseTemplate (String.mk ('/' :: '/' :: body)) = .ok [Event.lineDone] := by
  constructor
  · unfold parseTemplate
    have ht : (String.mk ('#' :: body)).toList = '#' :: body := rfl
    rw [ht, scriptRun_hash body hno]
  · unfold parseTemplate
    have ht : (String.mk ('/' :: '/' :: body)).toList = '/' :: '/' :: body := rfl
    rw [ht, scriptRun_slash body hno]

/-- C2 witness: the amended statement at the concrete body `hi`. -/
theorem C2_witness :
    parseTemplate (String.mk ('#' :: ['h', 'i'])) = .ok [] ∧
    parseTemplate (String.mk ('/' :: '/' :: ['h', 'i'])) = .ok [Event.lineDone] :=
  C2_comment_linedone ['h', 'i'] (by unfold NoEol; decide)

/-- C3 counterexample: the separators of the CIDR and IP forms are the PEG
any-character wildcard, not literal dots: `1x2x3x4/5` is classified CIDR and
`1x2x3x4` IP, refuting the claim that only `.`-separated digit groups are
accepted. -/
theorem C3_counterexample :
    parseTemplate "create vpc p=1x2x3x4/5" = .ok [.action "create", .entity "vpc",
      .paramKey "p", .cidrValue "1x2x3x4/5", .lineDone] ∧
    parseTemplate "create vpc p=1x2x3x4" = .ok [.action "create", .entity "vpc",
      .paramKey "p", .ipValue "1x2x3x4", .lineDone] := ⟨rfl, rfl⟩

/-- C3 amended: a value token is matched by the `CidrValue` rule exactly when
it is four maximal digit runs separated by three arbitrary single characters,
a literal `/` and a final digit run, and by the `IpValue` rule exactly when it
is four maximal digit runs separated by three arbitrary single characters; on
such tokens the `Value` rule emits the CIDR (resp. IP) classification over the
whole token (the dotted forms of the claim are the special case where every
separator is `.`). -/
theorem C3_cidr_ip_shape :
    (∀ (b : List Char) (mx : Tok),
      (∃ mx2 evs, pCidrBody b 0 mx = (mx2, some (b.length, evs))) ↔ CidrShaped b) ∧
    (∀ (b : List Char) (mx : Tok),
      (∃ mx2 evs, pIpBody b 0 mx = (mx2, some (b.length, evs))) ↔ IpShaped b) ∧
    (∀ b : List Char, CidrShaped b →
      (pValue b 0 tok0).2 = some (b.length, [Event.cidrValue b.asString])) ∧
    (∀ b : List Char, IpShaped b →
      (pValue b 0 tok0).2 = some (b.length, [Event.ipValue b.asString])) := by
  refine ⟨fun b mx => ⟨?_, ?_⟩, fun b mx => ⟨?_, ?_⟩, ?_, ?_⟩
  · rintro ⟨mx2, evs, h⟩
    exact pCidrBody_shape h
  · intro h
    exact ⟨mx, [], pCidrBody_accepts mx h⟩
  · rintro ⟨mx2, evs, h⟩
    exact pIpBody_shape h
  · intro h
    exact ⟨mx, [], pIpBody_accepts mx h⟩
  · intro b h
    exact pValue_cidr_forward h
  · intro b h
    exact pValue_ip_forward h

/-- C3 witness: the amended statement at the concrete tokens `1y2y3y4/5` and
`10.0.0.0`. -/
theorem C3_witness :
    (pValue "1y2y3y4/5".toList 0 tok0).2 =
      some ("1y2y3y4/5".toList.length, [Event.cidrValue "1y2y3y4/5".toList.asString]) ∧
    (pValue "10.0.0.0".toList 0 tok0).2 =
      some ("10.0.0.0".toList.length, [Event.ipValue "10.0.0.0".toList.asString]) := by
  constructor
  · exact C3_cidr_ip_shape.2.2.1 "1y2y3y4/5".toList
      ⟨['1'], 'y', ['2'], 'y', ['3'], 'y', ['4'], ['5'], rfl, ⟨by decide, by decide⟩,
        ⟨by decide, by decide⟩, ⟨by decide, by decide⟩, ⟨by decide, by decide⟩,
        ⟨by decide, by decide⟩, by decide, by decide, by decide⟩
  · exact C3_cidr_ip_shape.2.2.2 "10.0.0.0".toList
      ⟨['1', '0'], '.', ['0'], '.', ['0'], '.', ['0'], rfl, ⟨by decide, by decide⟩,
        ⟨by decide, by decide⟩, ⟨by decide, by decide⟩, ⟨by decide, by decide⟩,
        by decide, by decide, by decide⟩

/-- C4: Revert ordering (spec-modelled `tplExec.Revert`).  The reverted
template of a concatenated record is the reverted second part followed by the
reverted first part (so later statements are reverted first), a single entry
reverts to its inverse exactly when it executed successfully and has one, and
on a concrete record only the successful invertible entries survive, in
reversed order, with the recorded result as the deletion identifier. -/
theorem C4_revert_ordering :
    (∀ xs ys : List ExecutedStatement, Revert (xs ++ ys) = Revert ys ++ Revert xs) ∧
    (∀ e : ExecutedStatement,
      Revert [e] = if e.err.isNone then (invertStatement e).toList else []) ∧
    Revert [⟨"create", "vpc", [("cidr", "10.0.0.0/16")], some "vpc-123", none⟩,
            ⟨"update", "subnet", [("id", "sub-0")], none, none⟩,
            ⟨"create", "subnet", [("vpc", "vpc-123")], some "sub-1", none⟩] =
      [⟨"delete", "subnet", [("id", "sub-1")], none, none⟩,
       ⟨"delete", "vpc", [("id", "vpc-123")], none, none⟩] := by
  refine ⟨?_, ?_, rfl⟩
  · intro xs ys
    unfold Revert
    rw [List.filter_append, List.reverse_append, List.filterMap_append]
  · intro e
    unfold Revert
    cases herr : e.err with
    | none =>
      simp only [List.filter_cons, herr, Option.isNone_none, List.filter_nil,
        List.reverse_cons, List.reverse_nil, List.nil_append, List.filterMap_cons,
        List.filterMap_nil, if_true]
      cases hi : invertStatement e <;> simp [Option.toList]
    | some msg =>
      simp [List.filter_cons, herr, Revert]

/-- C5: closed enumerations at parse time.  Every action builder call of a
successful parse carries one of the nine enumerated action literals, every
entity call one of the enumerated entity literals, and statements with an
unknown action or entity token are parse errors. -/
theorem C5_closed_enumerations :
    (∀ (s : String) (evs : List Event) (a : String),
      parseTemplate s = .ok evs → Event.action a ∈ evs → a ∈ actionLits) ∧
    (∀ (s : String) (evs : List Event) (en : String),
      parseTemplate s = .ok evs → Event.entity en ∈ evs → en ∈ entityLits) ∧
    parseOK "foo vpc" = false ∧
    parseOK "create foo" = false := by
  refine ⟨?_, ?_, rfl, rfl⟩
  · intro s evs a h hmem
    unfold parseTemplate at h
    split at h
    · rename_i mx pos evs' heq
      injection h with h
      subst h
      exact pgood_pScript _ _ _ _ _ _ heq _ hmem
    · cases h
  · intro s evs en h hmem
    unfold parseTemplate at h
    split at h
    · rename_i mx pos evs' heq
      injection h with h
      subst h
      exact pgood_pScript _ _ _ _ _ _ heq _ hmem
    · cases h

/-- C5 witness: the universal parts applied at the concrete script
`create vpc`. -/
theorem C5_witness :
    ("create" ∈ actionLits) ∧ ("vpc" ∈ entityLits) := by
  constructor
  · exact C5_closed_enumerations.1 "create vpc"
      [.action "create", .entity "vpc", .lineDone] "create" rfl (by simp)
  · exact C5_closed_enumerations.2.1 "create vpc"
      [.action "create", .entity "vpc", .lineDone] "vpc" rfl (by simp)

/-- C6: dry-run success synthesis.  With the required parameter set, the
generated `Create_Vpc_DryRun` returns the synthesized `fakeDryRunId "vpc"`
with a nil error exactly when the platform call produced an `awserr.Error`
whose code is `DryRunOperation` or ends in `NotFound`; any other coded error,
and any non-`awserr` error, is returned as is with no identifier. -/
theorem C6_dryrun_classification :
    (∀ callErr : Option GoErr,
      Create_Vpc_DryRun none callErr = (some (fakeDryRunId "vpc"), none) ↔
        ∃ code msg, callErr = some (.awsErr code msg) ∧
          (code = dryRunOperation ∨ goHasSuffix code notFound = true)) ∧
    (∀ code msg, ¬ (code = dryRunOperation ∨ goHasSuffix code notFound = true) →
      Create_Vpc_DryRun none (some (.awsErr code msg)) =
        (none, some (.awsErr code msg))) ∧
    (∀ msg, Create_Vpc_DryRun none (some (.plain msg)) =
      (none, some (.plain msg))) := by
  refine ⟨?_, ?_, ?_⟩
  · intro callErr
    constructor
    · intro h
      unfold Create_Vpc_DryRun at h
      cases callErr with
      | none => simp at h
      | some e =>
        cases e with
        | awsErr code msg =>
          dsimp only at h
          by_cases hc : code = dryRunOperation ∨ goHasSuffix code notFound = true
          · exact ⟨code, msg, rfl, hc⟩
          · rw [if_neg hc] at h
            simp at h
        | plain msg => simp [Create_Vpc_DryRun] at h
    · rintro ⟨code, msg, rfl, hc⟩
      unfold Create_Vpc_DryRun
      dsimp only
      rw [if_pos hc]
  · intro code msg hc
    unfold Create_Vpc_DryRun
    dsimp only
    rw [if_neg hc]
  · intro msg
    rfl

/-- C6 witness: the classification at a `DryRunOperation`-coded error and at a
plain error. -/
theorem C6_witness :
    Create_Vpc_DryRun none (some (.awsErr "DryRunOperation" "would succeed")) =
      (some (fakeDryRunId "vpc"), none) ∧
    Create_Vpc_DryRun none (some (.plain "boom")) = (none, some (.plain "boom")) := by
  constructor
  · exact (C6_dryrun_classification.1 (some (.awsErr "DryRunOperation"
      "would succeed"))).mpr ⟨"DryRunOperation", "would succeed", rfl, Or.inl rfl⟩
  · exact C6_dryrun_classification.2.2 "boom"

/-- C7: revert command flow (collaborators spec-modelled).  With no argument
`revertCmd.RunE` returns the REVERTID-required error with an empty step trace
(in particular no execution-history access), and with an argument and
succeeding collaborators it loads the record via `GetTemplateExecution`,
builds the reverted template, prints its rendering and only afterwards
executes it. -/
theorem C7_revert_command_flow :
    (∀ deps : RevertDeps, revertCmdRunE [] deps =
      ([], .errored "REVERTID required (see `awless log` to list revert ids)")) ∧
    (∀ (id : String) (rest : List String) (deps : RevertDeps)
      (record : List ExecutedStatement), deps.dbCurrentErr = none →
      deps.getExec id = .ok record → deps.revertErr = none →
      (revertCmdRunE (id :: rest) deps).1 =
        [.dbCurrent, .getTemplateExecution id, .dbClose, .revertBuild,
         .print (deps.render (Revert record) ++ "\n"), .run (Revert record)]) := by
  constructor
  · intro deps
    rfl
  · intro id rest deps record h1 h2 h3
    unfold revertCmdRunE
    dsimp only
    rw [h1, h2, h3]
    dsimp only
    cases deps.runErr (Revert record) <;> rfl

/-- C7 witness: the no-argument error and the full trace at concrete
collaborators. -/
theorem C7_witness :
    revertCmdRunE [] ⟨none, fun _ => Except.ok [], none, fun _ => "out",
      fun _ => none⟩ =
      ([], .errored "REVERTID required (see `awless log` to list revert ids)") ∧
    (revertCmdRunE ["01BA7RV6ES86PZYCM3H28WM6KZ"] ⟨none, fun _ => Except.ok [], none,
      fun _ => "out", fun _ => none⟩).1 =
      [.dbCurrent, .getTemplateExecution "01BA7RV6ES86PZYCM3H28WM6KZ", .dbClose,
       .revertBuild, .print "out\n", .run []] := by
  constructor
  · exact C7_revert_command_flow.1 _
  · have := C7_revert_command_flow.2 "01BA7RV6ES86PZYCM3H28WM6KZ" []
      ⟨none, fun _ => Except.ok [], none, fun _ => "out", fun _ => none⟩ [] rfl rfl rfl
    simpa using this

/-- C8 counterexample: on the non-matching input `=` the reported message
names `Unknown`, which is not a rule of the grammar: the message contains no
grammar rule name, refuting the claim that every syntax error identifies the
offending grammar rule. -/
theorem C8_counterexample :
    parseTemplate "=" =
      .error "\nparse error near Unknown (line 1 symbol 1 - line 1 symbol 1):\n\"\"\n" ∧
    (∀ r : pegRule, r ≠ .unknown →
      strContains
        "\nparse error near Unknown (line 1 symbol 1 - line 1 symbol 1):\n\"\"\n"
        (rul3s r) = false) :=
  ⟨rfl, by decide⟩

/-- C8 amended: every non-matching input yields a parse error whose message is
built from the farthest-extending matched token: its rule name and the
line/symbol translation of its span.  When some rule matched a non-empty span
the message names that rule and its position (here `Identifier` on line 2);
when nothing matched, the zero `Unknown` token with an empty span at line 1
symbol 1 is reported instead of a grammar rule. -/
theorem C8_error_reporting :
    (∀ s : String, parseOK s = false →
      ∃ mx, scriptRunL s.toList = (mx, none) ∧
        parseTemplate s = .error (parseErrorMessage s.toList mx)) ∧
    parseTemplate "create vpc\nxyz" =
      .error "\nparse error near Identifier (line 2 symbol 1 - line 2 symbol 4):\n\"xyz\"\n" ∧
    strContains
      "\nparse error near Identifier (line 2 symbol 1 - line 2 symbol 4):\n\"xyz\"\n"
      "Identifier" = true ∧
    strContains
      "\nparse error near Identifier (line 2 symbol 1 - line 2 symbol 4):\n\"xyz\"\n"
      "line 2 symbol 1" = true ∧
    parseTemplate "~" =
      .error "\nparse error near Unknown (line 1 symbol 1 - line 1 symbol 1):\n\"\"\n" := by
  refine ⟨?_, rfl, by decide, by decide, rfl⟩
  intro s h
  unfold parseOK parseOKL at h
  rcases hs : scriptRunL s.toList with ⟨mx, r⟩
  cases r with
  | none =>
    refine ⟨mx, rfl, ?_⟩
    unfold parseTemplate
    rw [hs]
  | some v =>
    rw [hs] at h
    simp at h

/-- C8 witness: the amended universal part at the concrete failing input
`~`. -/
theorem C8_witness :
    parseOK "~" = false ∧
    ∃ mx, scriptRunL "~".toList = (mx, none) ∧
      parseTemplate "~" = .error (parseErrorMessage "~".toList mx) :=
  ⟨rfl, C8_error_reporting.1 "~" rfl⟩

/-- C9: whole-input parsing.  The empty input is a parse error, every
successful run of the start rule consumes the entire buffer (spacing, one or
more statements, end of input), and an input with trailing text that forms no
complete statement is rejected wholesale. -/
theorem C9_whole_input :
    parseOK "" = false ∧
    (∀ (b : List Char) (mx : Tok) (pos : Nat) (evs : List Event),
      scriptRunL b = (mx, some (pos, evs)) → pos = b.length) ∧
    parseOK "create vpc xx" = false := by
  refine ⟨rfl, ?_, rfl⟩
  intro b mx pos evs h
  unfold scriptRunL pScript at h
  obtain ⟨mx1, h, _⟩ := ptoken_inv h
  obtain ⟨mx2, pos2, ev1, ev2, hsp, h, _⟩ := pseq_inv h
  obtain ⟨mx3, pos3, ev3, ev4, hpl, heof, _⟩ := pseq_inv h
  obtain ⟨mx4, heof', _⟩ := ptoken_inv heof
  obtain ⟨hpos, _, hfail⟩ := pnot_inv heof'
  have hb2 : pos2 ≤ b.length := pbound_pSpacing _ _ _ _ _ _ (by omega) hsp
  have hb3 : pos3 ≤ b.length :=
    pbound_pplus pbound_pStatement _ _ _ _ _ _ hb2 hpl
  have hnlt : ¬ pos3 < b.length := by
    unfold pany at hfail
    by_cases hlt : pos3 < b.length
    · rw [if_pos hlt] at hfail
      simp at hfail
    · exact hlt
  omega

/-- C9 witness: the universal part applied at the concrete successful script
`create vpc`, whose run stops exactly at the end of the ten-character
buffer. -/
theorem C9_witness : (10 : Nat) = "create vpc".toList.length :=
  C9_whole_input.2.1 "create vpc".toList ⟨.entity, 7, 10⟩ 10
    [.action "create", .entity "vpc", .lineDone] rfl

/-- C10: dry-run nil-error edge.  When the platform call inside
`Create_Vpc_DryRun` returns no error at all, the function returns a nil
identifier and a nil error: no simulated identifier is synthesized and no
error is reported. -/
theorem C10_dryrun_nil_error : Create_Vpc_DryRun none none = (none, none) := rfl
